import Mathlib

/-!
Verification development for `lab.py`, a plain-text lab notebook tool.

The core of the program (entry record, section codec, store/query and
chaining logic from `src/lab.py`) is shallowly embedded below.  Modelling
conventions, used consistently throughout:

* A text file is modelled as its list of lines (`List String`, lines do not
  contain the trailing newline).  Python's `print(s, file=fid)` writes
  `s ++ "\n"`; iterating a file yields its lines.  Hence writing the strings
  `s₁, …, sₙ` produces the line list `join (map splitNl [s₁, …, sₙ])`,
  where `splitNl` splits a string at newline characters.
* Python `str` values are Lean `String`s; character-level operations are
  defined on `List Char` (Lean strings are just wrapped `List Char`).
  Whitespace is modelled as ASCII whitespace (the only whitespace the
  program's own data uses).
* Python `None`-or-string parameters are `Option String`; an argument that
  the caller leaves unset receives the Python default value of `lab.py`'s
  signature (`None`, `'entry'`, `''`, …), passed explicitly.
* `sys.exit(msg)` / uncaught exceptions are modelled with `Except String`;
  `datetime` errors and `list.pop` on an empty list inside `parse_sections`
  are the `PyExc` values caught by `entry.__init__`'s `except` clauses.
* The entries directory is an association list `Dir` from filename to file
  lines; `os.listdir` is its list of keys, `os.path.exists`/`open` is
  `lookupDir`, writing a file is `updateDir`.
* Python's `list.sort()` on filenames is a stable ascending sort with
  respect to code-point lexicographic order; it is modelled with
  `List.insertionSort` over `pyLe` (also stable and ascending, hence
  producing the identical list).
* `datetime.date.today()` is a parameter `today` (a YYMMDD string).
-/

/-- Python `str.isspace` restricted to ASCII, i.e. the whitespace characters
`' '`, `'\t'`, `'\n'`, `'\r'`, `'\x0b'`, `'\x0c'` relevant to this format. -/
def py_isspace (c : Char) : Bool :=
  c = ' ' || c = '\t' || c = '\n' || c = '\r' || c = Char.ofNat 11 || c = Char.ofNat 12

/-- Python `str.strip()` on a character list: drop whitespace from both ends. -/
def stripL (l : List Char) : List Char :=
  ((l.dropWhile py_isspace).reverse.dropWhile py_isspace).reverse

/-- Python `s.strip()`. -/
def pyStrip (s : String) : String := String.mk (stripL s.data)

/-- Python `line.startswith(pre)`. -/
def pyStartsWith (line pre : String) : Bool := pre.data.isPrefixOf line.data

/-- Python `s.endswith(suf)`. -/
def pyEndsWith (s suf : String) : Bool := suf.data.isSuffixOf s.data

/-- Substring occurrence test (`needle in hay` on Python strings), used to
state which section names an error message mentions. -/
def containsSub (hay needle : List Char) : Bool :=
  needle.isPrefixOf hay ||
    match hay with
    | [] => false
    | _ :: t => containsSub t needle

/-- Split a character list at every occurrence of `sep` (Python
`str.split(sep)` for a single-character separator: `"" ↦ [""]`,
`"a,,b" ↦ ["a","","b"]`). -/
def splitSep (sep : Char) : List Char → List (List Char)
  | [] => [[]]
  | c :: cs =>
    match splitSep sep cs with
    | [] => [[c]]
    | h :: t => if c = sep then [] :: h :: t else (c :: h) :: t

/-- Split a string into its newline-separated lines (`"a\nb" ↦ ["a","b"]`,
`"a\n" ↦ ["a",""]`, `"" ↦ [""]`). -/
def splitNl (s : String) : List String := (splitSep '\n' s.data).map String.mk

/-- Python `s.split(',')`. -/
def splitComma (s : String) : List String := (splitSep ',' s.data).map String.mk

/-- Concatenate lines, terminating each with a newline (how the parser's
`paragraph += line` accumulates the lines of a file). -/
def joinNl (ls : List String) : String := ls.foldr (fun l acc => l ++ "\n" ++ acc) ""

/-- Code-point lexicographic order on character lists: Python's `<=` on `str`. -/
def listLe : List Char → List Char → Bool
  | [], _ => true
  | _ :: _, [] => false
  | a :: as, b :: bs => if a < b then true else if b < a then false else listLe as bs

/-- Python string order `a <= b` as a proposition (used for sorting filenames). -/
def pyLe (a b : String) : Prop := listLe a.data b.data = true

instance : DecidableRel pyLe := fun a b => by unfold pyLe; infer_instance

/-- Decidable equality for `Except` results (Python-level observable outcome:
either an error message or a value). -/
instance {ε α : Type} [DecidableEq ε] [DecidableEq α] : DecidableEq (Except ε α) := fun a b =>
  match a, b with
  | .error x, .error y =>
    if h : x = y then isTrue (by rw [h])
    else isFalse (fun hc => h (by cases hc; rfl))
  | .ok x, .ok y =>
    if h : x = y then isTrue (by rw [h])
    else isFalse (fun hc => h (by cases hc; rfl))
  | .error _, .ok _ => isFalse (fun hc => Except.noConfusion hc)
  | .ok _, .error _ => isFalse (fun hc => Except.noConfusion hc)

/-- The character for a decimal digit `n < 10`. -/
def digitChar (n : Nat) : Char := Char.ofNat (48 + n)

/-- Zero-padded two-digit decimal rendering (`strftime` `%y`/`%m`/`%d` for
values below 100). -/
def pad2 (n : Nat) : String := String.mk [digitChar (n / 10 % 10), digitChar (n % 10)]

/-- Zero-padded four-digit decimal rendering (`strftime` `%Y` for years up
to 9999). -/
def fmt4 (n : Nat) : String :=
  String.mk [digitChar (n / 1000 % 10), digitChar (n / 100 % 10),
             digitChar (n / 10 % 10), digitChar (n % 10)]

/-- Full English month names used by `strftime('%B')` / `strptime('%B')`. -/
def monthName : Nat → String
  | 1 => "January" | 2 => "February" | 3 => "March" | 4 => "April"
  | 5 => "May" | 6 => "June" | 7 => "July" | 8 => "August"
  | 9 => "September" | 10 => "October" | 11 => "November" | 12 => "December"
  | _ => ""

/-- Gregorian leap-year rule used by `datetime`. -/
def isLeap (y : Nat) : Bool := (y % 4 == 0 && y % 100 != 0) || y % 400 == 0

/-- Number of days in month `m` of year `y` (as validated by `datetime.date`). -/
def daysInMonth (y m : Nat) : Nat :=
  if m = 2 then (if isLeap y then 29 else 28)
  else if m = 4 ∨ m = 6 ∨ m = 9 ∨ m = 11 then 30
  else 31

/-- Digit-run value for Python `int()`: digits possibly separated by single
underscores between digits (`int('1_2') = 12`), continuing `acc`. -/
def intCore : Nat → List Char → Option Nat
  | acc, [] => some acc
  | acc, '_' :: c :: cs =>
    if c.isDigit then intCore (acc * 10 + (c.toNat - 48)) cs else none
  | acc, c :: cs =>
    if c.isDigit then intCore (acc * 10 + (c.toNat - 48)) cs else none

/-- Start of a digit run for Python `int()`: must begin with a digit. -/
def intStart : List Char → Option Nat
  | [] => none
  | c :: cs => if c.isDigit then intCore (c.toNat - 48) cs else none

/-- Python `int(s)`: optional surrounding whitespace, optional sign, ASCII
digit run (underscore separators allowed between digits); `none` models
`ValueError`. -/
def pyInt? (s : String) : Option Int :=
  match stripL s.data with
  | [] => none
  | c :: rest =>
    if c = '+' then (intStart rest).map (fun n => (n : Int))
    else if c = '-' then (intStart rest).map (fun n => -(n : Int))
    else (intStart (c :: rest)).map (fun n => (n : Int))

/-- The computation of `entry.get_date` (lab.py lines 143-153) when no cached
`date_str` exists: `y = 2000 + int(date[0:2])`, `m = int(date[2:4])`,
`d = int(date[4:])`, validated by `datetime.date(y, m, d)`, rendered by
`strftime('%B %d, %Y')`.  `none` models the raised `ValueError`/`TypeError`. -/
def strftimeBdY (date : String) : Option String :=
  match pyInt? (String.mk (date.data.take 2)),
        pyInt? (String.mk ((date.data.drop 2).take 2)),
        pyInt? (String.mk (date.data.drop 4)) with
  | some yy, some mi, some di =>
    let y : Int := 2000 + yy
    if 1 ≤ mi ∧ mi ≤ 12 ∧ 1 ≤ di ∧ di ≤ (daysInMonth y.toNat mi.toNat : Int)
        ∧ 1 ≤ y ∧ y ≤ 9999 then
      some (monthName mi.toNat ++ " " ++ pad2 di.toNat ++ ", " ++ fmt4 y.toNat)
    else none
  | _, _, _ => none

/-- Case-insensitive prefix test (how `strptime`'s `re.IGNORECASE` matching
compares a literal month name against the input). -/
def prefixCI (pat l : List Char) : Bool :=
  (pat.map Char.toLower).isPrefixOf (l.map Char.toLower)

/-- Match one of the twelve `%B` month-name alternatives at the head of the
input, returning the month number and the unconsumed remainder. -/
def matchMonth (l : List Char) : Option (Nat × List Char) :=
  [1, 2, 3, 4, 5, 6, 7, 8, 9, 10, 11, 12].findSome? fun m =>
    let nm := (monthName m).data
    if prefixCI nm l then some (m, l.drop nm.length) else none

/-- Match the `\s+` a literal space in a `strptime` format turns into:
at least one whitespace character, consumed greedily. -/
def parseWs1 : List Char → Option (List Char)
  | [] => none
  | c :: cs => if py_isspace c then some (cs.dropWhile py_isspace) else none

/-- The two-character alternatives of `strptime`'s `%d` day group
(`3[01]|[12]\d|0[1-9]`). -/
def day2Val (c1 c2 : Char) : Option Nat :=
  if c1 = '3' ∧ (c2 = '0' ∨ c2 = '1') then some (30 + (c2.toNat - 48))
  else if (c1 = '1' ∨ c1 = '2') ∧ c2.isDigit then
    some ((c1.toNat - 48) * 10 + (c2.toNat - 48))
  else if c1 = '0' ∧ c2.isDigit ∧ c2 ≠ '0' then some (c2.toNat - 48)
  else none

/-- `%d` immediately followed by the literal `,` of the format
`'%B %d, %Y'`, with the regex backtracking from a two-digit to a one-digit
day when the comma does not follow. -/
def dayComma : List Char → Option (Nat × List Char)
  | c1 :: c2 :: rest =>
    (match day2Val c1 c2, rest with
     | some d, ',' :: r => some (d, r)
     | _, _ =>
       if c1.isDigit ∧ c1 ≠ '0' ∧ c2 = ',' then some (c1.toNat - 48, rest) else none)
  | _ => none

/-- `strptime`'s `%Y`: exactly four digits, which must end the input
(`strptime` rejects unconverted trailing data). -/
def year4End : List Char → Option Nat
  | [a, b, c, d] =>
    if a.isDigit ∧ b.isDigit ∧ c.isDigit ∧ d.isDigit then
      some ((a.toNat - 48) * 1000 + (b.toNat - 48) * 100 + (c.toNat - 48) * 10 + (d.toNat - 48))
    else none
  | _ => none

/-- `datetime.datetime.strptime(s, '%B %d, %Y')` (lab.py line 252): month
name, whitespace, 1-2 digit day, comma, whitespace, four-digit year; the
resulting `datetime` validates the day against the month and year.  `none`
models the raised `ValueError`. -/
def strptimeBdY (s : String) : Option (Nat × Nat × Nat) :=
  match matchMonth s.data with
  | none => none
  | some (m, r1) =>
    match parseWs1 r1 with
    | none => none
    | some r2 =>
      match dayComma r2 with
      | none => none
      | some (d, r3) =>
        match parseWs1 r3 with
        | none => none
        | some r4 =>
          match year4End r4 with
          | none => none
          | some y => if 1 ≤ y ∧ d ≤ daysInMonth y m then some (y, m, d) else none

/-- `d.strftime('%y%m%d')` (lab.py line 253). -/
def fmtYMD (y m d : Nat) : String := pad2 (y % 100) ++ pad2 m ++ pad2 d

/-- One notebook entry (`class entry`), with the fields of its `__init__`. -/
structure Entry where
  folder : String
  filename : String
  date : String
  date_str : Option String
  location : String
  project : String
  keywords : String
  goal : String
  log : String
  summary : String
  attachments : String
  previous : String
  next : String
  deriving DecidableEq

/-- The configured entries directory path (`entry_dir`); its concrete value
is irrelevant to the specified core. -/
def entry_dir : String := "entries/"

/-- `entry.get_date` (lab.py lines 143-153): return the cached `date_str` if
present, otherwise compute the long date from the YYMMDD `date` field;
`none` models the exception escaping from the `datetime` calls. -/
def get_date (e : Entry) : Option String :=
  match e.date_str with
  | some s => some s
  | none => strftimeBdY e.date

/-- `entry.has_keywords` tokenization: split on commas and strip each token. -/
def kwTokens (s : String) : List String := (splitComma s).map pyStrip

/-- `entry.has_keywords(keywords)` (lab.py lines 134-141): the two stripped
comma-token sets intersect. -/
def has_keywords (e : Entry) (keywords : String) : Bool :=
  (kwTokens keywords).any fun t => (kwTokens e.keywords).contains t

/-- Exceptions that can escape `entry.parse_sections`: `ValueError` from
`strptime`, `IndexError` from `sec.pop()` on an empty list. -/
inductive PyExc
  | valueError
  | indexError
  deriving DecidableEq

/-- The dictionary `result` of `parse_sections`, as a (total) lookup map. -/
abbrev Dict : Type := String → Option String

/-- Dictionary assignment `result[k] = v`. -/
def insertD (d : Dict) (k v : String) : Dict := Function.update d k (some v)

/-- The mutable loop state of `entry.parse_sections`: the `result` dict, the
`this_section` / `next_section` cursors, the remaining section-name stack
`sec` (popped from the front here; the Python code reverses the list and
pops from the back), and the paragraph accumulator. -/
structure PState where
  result : Dict
  this_section : String
  next_section : String
  sec : List String
  paragraph : String

/-- One iteration of the `for line in fid` loop of `parse_sections`
(lab.py lines 263-275): a line starting with the next expected section title
commits the stripped paragraph and advances (popping the following title,
`IndexError` when the stack is empty); a line starting with `----` is
dropped; any other line is appended to the paragraph.  Every branch ends by
storing the stripped paragraph under the current section. -/
def parseStep (st : PState) (line : String) : Except PyExc PState :=
  if pyStartsWith line st.next_section then
    let r1 := insertD st.result st.this_section (pyStrip st.paragraph)
    match st.sec with
    | [] => .error .indexError
    | n :: rest =>
      .ok { result := insertD r1 st.next_section "", this_section := st.next_section,
            next_section := n, sec := rest, paragraph := "" }
  else if pyStartsWith line "----" then
    .ok { st with result := insertD st.result st.this_section (pyStrip st.paragraph) }
  else
    let p := st.paragraph ++ line ++ "\n"
    .ok { st with paragraph := p, result := insertD st.result st.this_section (pyStrip p) }

/-- Run the parsing loop over the remaining lines of the file. -/
def runLoop : PState → List String → Except PyExc PState
  | st, [] => .ok st
  | st, l :: ls =>
    match parseStep st l with
    | .error e => .error e
    | .ok st' => runLoop st' ls

/-- `entry.parse_sections` (lab.py lines 243-277) on the lines of a file:
first line (stripped) is `DateStr`, re-rendered as `Date`; the second line
(the `=` underline) is consumed unvalidated; then the section loop runs with
`this_section = 'Location'`, `next_section = 'Project'` and the remaining
titles (ending in the `'never find me'` sentinel) on the stack. -/
def parse_sections (lines : List String) : Except PyExc Dict :=
  let dateStr := pyStrip (lines.headD "")
  match strptimeBdY dateStr with
  | none => .error .valueError
  | some (y, m, d) =>
    let r0 : Dict := fun _ => none
    let r1 := insertD (insertD r0 "DateStr" dateStr) "Date" (fmtYMD y m d)
    let st0 : PState :=
      { result := r1, this_section := "Location", next_section := "Project",
        sec := ["Keywords", "Goal", "Log Entry", "Summary", "Attachments",
                "Previous", "Next", "never find me"],
        paragraph := "" }
    match runLoop st0 (lines.drop 2) with
    | .error e => .error e
    | .ok st => .ok st.result

/-- Render a dict key the way `'%s' % KeyError(k)` does: in single quotes. -/
def quoteKey (k : String) : String := String.mk ('\'' :: (k.data ++ ['\'']))

/-- One `contents[k]` access in `entry.__init__` (lab.py lines 118-130); a
missing key is the `KeyError` turned into
`sys.exit('error parsing %s section of %s' % (err, filename))`. -/
def getKey (c : Dict) (k filename : String) : Except String String :=
  match c k with
  | some v => .ok v
  | none => .error ("error parsing " ++ quoteKey k ++ " section of " ++ filename)

/-- Hydrating an entry from an existing file (lab.py lines 115-132): run
`parse_sections` and read the eleven keys in source order; any other
exception becomes `sys.exit('unknown error parsing %s' % filename)`. -/
def entry_load (filename : String) (ls : List String) : Except String Entry := do
  match parse_sections ls with
  | .error _ => .error ("unknown error parsing " ++ filename)
  | .ok c =>
    let date ← getKey c "Date" filename
    let dstr ← getKey c "DateStr" filename
    let loc ← getKey c "Location" filename
    let proj ← getKey c "Project" filename
    let kw ← getKey c "Keywords" filename
    let goal ← getKey c "Goal" filename
    let lg ← getKey c "Log Entry" filename
    let sm ← getKey c "Summary" filename
    let att ← getKey c "Attachments" filename
    let pv ← getKey c "Previous" filename
    let nx ← getKey c "Next" filename
    .ok { folder := entry_dir, filename := filename, date := date, date_str := some dstr,
          location := loc, project := proj, keywords := kw, goal := goal, log := lg,
          summary := sm, attachments := att, previous := pv, next := nx }

/-- The entries directory: an association list from filename to file lines. -/
abbrev Dir : Type := List (String × List String)

/-- `os.path.exists` + reading the file's lines. -/
def lookupDir (dir : Dir) (f : String) : Option (List String) :=
  (List.find? (fun p => p.1 == f) dir).map (·.2)

/-- Writing a file: replace the contents if the name exists, else create it. -/
def updateDir (dir : Dir) (f : String) (ls : List String) : Dir :=
  if List.any dir (fun p => p.1 == f) then
    List.map (fun p => if p.1 == f then (f, ls) else p) dir
  else dir ++ [(f, ls)]

/-- `entry.__init__` (lab.py lines 71-132).  Arguments are in source order
(`folder` is omitted: every modelled caller uses `entry_dir`); `Option`
models Python `None`; `today` models `datetime.date.today()`.  An unset
`date` defaults to `today`; an unset `filename` defaults to
`<date>_<project>.md` — computed *before* the `None` project is replaced by
`'entry'`, so a `None` project with an unset filename raises `TypeError`.
If the file exists it is parsed and every field except folder/filename is
overwritten by its contents. -/
def entry_init (dir : Dir) (filenameOpt dateOpt : Option String) (location : String)
    (projectOpt keywordsOpt : Option String) (previous next : String)
    (today : String) : Except String Entry := do
  let keywords := keywordsOpt.getD ""
  let date := dateOpt.getD today
  let filename ←
    match filenameOpt with
    | some f => Except.ok f
    | none =>
      match projectOpt with
      | some p => Except.ok (date ++ "_" ++ p ++ ".md")
      | none => Except.error "TypeError: can only concatenate str (not NoneType) to str"
  let project := projectOpt.getD "entry"
  match lookupDir dir filename with
  | none =>
    .ok { folder := entry_dir, filename := filename, date := date, date_str := none,
          location := location, project := project, keywords := keywords, goal := "",
          log := "", summary := "", attachments := "", previous := previous, next := next }
  | some ls => entry_load filename ls

/-- `'<c>'.rjust(n, '<c>')`: `n` copies of `c`, but never fewer than one. -/
def pyRjust1 (c : Char) (n : Nat) : String := String.mk (List.replicate (max n 1) c)

/-- The strings printed by `entry.to_file` (lab.py lines 183-199), in order:
date string, its `=` underline, location, blank line, then for each of the
eight titles the title, its `-` underline, the section text, and a blank
line.  (The `for t, s in zip(titles, sections)` loop is unrolled.) -/
def printedLines (e : Entry) (ds : String) : List String :=
  [ds, pyRjust1 '=' ds.length, e.location, "",
   "Project", pyRjust1 '-' 7, e.project, "",
   "Keywords", pyRjust1 '-' 8, e.keywords, "",
   "Goal", pyRjust1 '-' 4, e.goal, "",
   "Log Entry", pyRjust1 '-' 9, e.log, "",
   "Summary", pyRjust1 '-' 7, e.summary, "",
   "Attachments", pyRjust1 '-' 11, e.attachments, "",
   "Previous", pyRjust1 '-' 8, e.previous, "",
   "Next", pyRjust1 '-' 4, e.next, ""]

/-- The lines of the file `to_file` writes (multi-line section texts
contribute one file line per newline-separated piece). -/
def serializeLines (e : Entry) (ds : String) : List String :=
  (printedLines e ds).flatMap splitNl

/-- `entry.to_file` as a pure function from record to file lines; `none`
models the exception escaping from `get_date`. -/
def to_file_lines (e : Entry) : Option (List String) :=
  (get_date e).map fun ds => serializeLines e ds

/-- `entry.to_file`'s effect on the target file: `open(filename, 'w')`
truncates the file *before* `get_date` is called, so when `get_date` raises
(first component `true`) the file has already been emptied; otherwise the
serialized lines are written. -/
def to_file_fs (e : Entry) : Bool × List String :=
  match get_date e with
  | none => (true, [])
  | some ds => (false, serializeLines e ds)

/-- `e.to_file()` against the directory: write the serialization under
`e.filename`, propagating the `get_date` exception. -/
def writeEntry (dir : Dir) (e : Entry) : Except String Dir :=
  match get_date e with
  | none => .error "ValueError: invalid date in get_date"
  | some ds => .ok (updateDir dir e.filename (serializeLines e ds))

/-- The three optional filters of `get_entries` (lab.py lines 538-545),
applied in source order: exact project match, exact date match, keyword
intersection; an omitted (`none`) filter is skipped. -/
def filter_entries (project date keywords : Option String) (es : List Entry) : List Entry :=
  let e1 := match project with
    | none => es
    | some p => es.filter fun e => e.project == p
  let e2 := match date with
    | none => e1
    | some d => e1.filter fun e => e.date == d
  match keywords with
  | none => e2
  | some k => e2.filter fun e => has_keywords e k

/-- Loading one listed file inside `get_entries`: `entry(filename=f)`, i.e.
all other constructor arguments at their Python defaults. -/
def loadEntryFile (dir : Dir) (today f : String) : Except String Entry :=
  entry_init dir (some f) none "" (some "entry") (some "") "" "" today

/-- The sorted list of markdown filenames `get_entries` iterates over:
`os.listdir` filtered to names ending in `.md`, sorted ascending. -/
def mdSorted (dir : Dir) : List String :=
  List.insertionSort pyLe ((dir.map Prod.fst).filter fun f => pyEndsWith f ".md")

/-- The list comprehension `[entry(filename=f) for f in files]`: load the
files one by one; the `sys.exit` of the first failing parse aborts the
whole listing. -/
def mapEntries (f : String → Except String Entry) : List String → Except String (List Entry)
  | [] => .ok []
  | x :: xs =>
    match f x with
    | .error e => .error e
    | .ok v =>
      match mapEntries f xs with
      | .error e => .error e
      | .ok vs => .ok (v :: vs)

/-- `get_entries` (lab.py lines 530-547): list `.md` files, sort, parse each
into an entry (a parse failure aborts the whole listing), then filter. -/
def get_entries (dir : Dir) (project date keywords : Option String) (today : String) :
    Except String (List Entry) := do
  let entries ← mapEntries (loadEntryFile dir today) (mdSorted dir)
  .ok (filter_entries project date keywords entries)

/-- `command_new` (lab.py lines 279-302) up to the final editor invocation:
construct the new entry from the `--date`/`--project`/`--keywords` options;
when no `--date` was passed, fetch the entries of the same project and, if
any exist, link the last one (`old.link_next(new)`, `new.link_prev(old)`)
and rewrite it; finally write the new entry.  Returns the directory after
the writes and the new entry. -/
def command_new (dir : Dir) (dateOpt projectOpt keywordsOpt : Option String)
    (today : String) : Except String (Dir × Entry) := do
  let new0 ← entry_init dir none dateOpt "" projectOpt keywordsOpt "" "" today
  if dateOpt.isNone then
    let olds ← get_entries dir projectOpt none none today
    match olds.getLast? with
    | some old =>
      let old1 := { old with next := new0.filename }
      let new1 := { new0 with previous := old.filename }
      let dir1 ← writeEntry dir old1
      let dir2 ← writeEntry dir1 new1
      .ok (dir2, new1)
    | none =>
      let dir1 ← writeEntry dir new0
      .ok (dir1, new0)
  else
    let dir1 ← writeEntry dir new0
    .ok (dir1, new0)

/-- A well-formed 6-digit YYMMDD calendar date string (the format the spec
requires of the `date` field): six ASCII digits forming a month 1-12 and a
day valid for that month of year `2000 + YY`. -/
def validYYMMDD (s : String) : Bool :=
  match s.data with
  | [a, b, c, d, e, f] =>
    a.isDigit && b.isDigit && c.isDigit && d.isDigit && e.isDigit && f.isDigit &&
    decide (1 ≤ (c.toNat - 48) * 10 + (d.toNat - 48)) &&
    decide ((c.toNat - 48) * 10 + (d.toNat - 48) ≤ 12) &&
    decide (1 ≤ (e.toNat - 48) * 10 + (f.toNat - 48)) &&
    decide ((e.toNat - 48) * 10 + (f.toNat - 48)
      ≤ daysInMonth (2000 + ((a.toNat - 48) * 10 + (b.toNat - 48)))
          ((c.toNat - 48) * 10 + (d.toNat - 48)))
  | _ => false

/-- A section text that the codec reproduces exactly: it carries no leading
or trailing whitespace, and none of its lines begins with the section title
the parser expects next, nor with `----`. -/
def goodField (s nextTitle : String) : Bool :=
  pyStrip s == s &&
  (splitNl s).all fun l => !pyStartsWith l nextTitle && !pyStartsWith l "----"

/-- A sample well-formed entry file, as its list of lines. -/
def sampleLines : List String :=
  ["January 01, 2023", "================", "home", "",
   "Project", "-------", "p", "",
   "Keywords", "--------", "a,b", "",
   "Goal", "----", "g", "",
   "Log Entry", "---------", "stuff", "",
   "Summary", "-------", "s", "",
   "Attachments", "-----------", "", "",
   "Previous", "--------", "", "",
   "Next", "----", "", ""]

/-- A sample entry record with all sections filled in. -/
def baseEntry : Entry :=
  { folder := entry_dir, filename := "230101_p.md", date := "230101", date_str := none,
    location := "home", project := "p", keywords := "a,b", goal := "g",
    log := "line1\nline2", summary := "s", attachments := "", previous := "", next := "" }

/-- An entry whose `keywords` field is the given string (all other fields at
their blank-construction values). -/
def mkKw (k : String) : Entry :=
  { folder := entry_dir, filename := "k.md", date := "230101", date_str := none,
    location := "", project := "entry", keywords := k, goal := "", log := "",
    summary := "", attachments := "", previous := "", next := "" }

/-- The sample file with a stray line after the `Next` section that begins
with the parser's internal `'never find me'` sentinel. -/
def sentinelLines : List String := sampleLines ++ ["never find me, you said?"]

/-- A file whose `Log Entry` body contains a line starting with `Summary`. -/
def quirkLines : List String :=
  ["January 01, 2023", "================", "home", "",
   "Project", "-------", "p", "",
   "Keywords", "--------", "a,b", "",
   "Goal", "----", "g", "",
   "Log Entry", "---------", "working on stuff", "Summary of today was bad", "",
   "Summary", "-------", "fine", "",
   "Attachments", "-----------", "", "",
   "Previous", "--------", "", "",
   "Next", "----", "", ""]

/-- A directory with three sample `.md` entries (listed out of order) and one
non-markdown file. -/
def dir3 : Dir :=
  [("170101_a.md", sampleLines), ("170102_a.md", sampleLines),
   ("161231_a.md", sampleLines), ("note.txt", ["junk"])]

/-- A directory holding one valid entry of project `p`. -/
def dirP : Dir := [("230101_p.md", sampleLines)]

/-- A directory holding one unparseable `.md` file. -/
def dirBad : Dir := [("bad.md", ["garbage", "x"])]

/-- The entry record obtained by parsing `sampleLines` under a given
filename. -/
def sampleEntry (f : String) : Entry :=
  { folder := entry_dir, filename := f, date := "230101",
    date_str := some "January 01, 2023", location := "home", project := "p",
    keywords := "a,b", goal := "g", log := "stuff", summary := "s",
    attachments := "", previous := "", next := "" }

/-- An entry, with every section non-empty, whose log contains a line
starting with `Summary`. -/
def entryQuirk : Entry :=
  { folder := entry_dir, filename := "230101_p.md", date := "230101", date_str := none,
    location := "home", project := "p", keywords := "a,b", goal := "g",
    log := "Summary boom", summary := "s", attachments := "att.png",
    previous := "230100_p.md", next := "230102_p.md" }

/-- The blank entry `command_new` constructs for project `p` on `230102`. -/
def entry2W : Entry :=
  { folder := entry_dir, filename := "230102_p.md", date := "230102", date_str := none,
    location := "", project := "p", keywords := "", goal := "", log := "",
    summary := "", attachments := "", previous := "", next := "" }

/-- The section dictionary produced by parsing a well-formed entry file: the
eleven keys of `entry.__init__`, inserted in the order the parser commits
them. -/
def dictOf (dsv datev locv projv kwv goalv logv sumv attv prevv nextv : String) : Dict :=
  insertD (insertD (insertD (insertD (insertD (insertD (insertD (insertD (insertD
    (insertD (insertD (fun _ => none) "DateStr" dsv) "Date" datev) "Location" locv)
    "Project" projv) "Keywords" kwv) "Goal" goalv) "Log Entry" logv) "Summary" sumv)
    "Attachments" attv) "Previous" prevv) "Next" nextv

/-! ### Basic facts about the string model -/

theorem str_data_mk (l : List Char) : (String.mk l).data = l := rfl

theorem str_data_app (s t : String) : (s ++ t).data = s.data ++ t.data :=
  String.data_append s t

theorem str_empty_append (s : String) : "" ++ s = s := by
  apply String.ext
  rw [str_data_app]
  rfl

theorem str_append_empty (s : String) : s ++ "" = s := by
  apply String.ext
  rw [str_data_app]
  simp [str_data_mk]

theorem pyStrip_empty : pyStrip "" = "" := rfl

theorem stripL_append_space (l : List Char) {c : Char} (h : py_isspace c = true) :
    stripL (l ++ [c]) = stripL l := by
  unfold stripL
  rw [List.dropWhile_append]
  by_cases hd : (List.dropWhile py_isspace l).isEmpty
  · have he : List.dropWhile py_isspace l = [] := by
      simpa [List.isEmpty_iff] using hd
    rw [if_pos hd, he]
    simp [List.dropWhile_cons, h]
  · rw [if_neg hd, List.reverse_append]
    simp [List.dropWhile_cons, h]

theorem pyStrip_append_nl (s : String) : pyStrip (s ++ "\n") = pyStrip s := by
  unfold pyStrip
  rw [str_data_app]
  have : ("\n" : String).data = ['\n'] := rfl
  rw [this, stripL_append_space]
  rfl

theorem joinNl_nil : joinNl [] = "" := rfl

theorem joinNl_cons (l : String) (ls : List String) :
    joinNl (l :: ls) = l ++ "\n" ++ joinNl ls := rfl

theorem joinNl_append (a b : List String) : joinNl (a ++ b) = joinNl a ++ joinNl b := by
  induction a with
  | nil => rw [List.nil_append, joinNl_nil, str_empty_append]
  | cons x xs ih =>
    rw [List.cons_append, joinNl_cons, joinNl_cons, ih]
    simp [String.append_assoc]

theorem splitSep_ne_nil (sep : Char) (l : List Char) : splitSep sep l ≠ [] := by
  cases l with
  | nil => simp [splitSep]
  | cons c cs =>
    unfold splitSep
    rcases h : splitSep sep cs with _ | ⟨hd, t⟩
    · simp
    · by_cases hc : c = sep <;> simp [hc]

theorem joinNl_map_mk (lls : List (List Char)) :
    (joinNl (lls.map String.mk)).data = lls.foldr (fun x acc => x ++ '\n' :: acc) [] := by
  induction lls with
  | nil => rfl
  | cons x xs ih =>
    rw [List.map_cons, joinNl_cons, str_data_app, str_data_app, ih]
    simp [str_data_mk]

theorem foldr_splitSep (l : List Char) :
    (splitSep '\n' l).foldr (fun x acc => x ++ '\n' :: acc) [] = l ++ ['\n'] := by
  induction l with
  | nil => rfl
  | cons c cs ih =>
    unfold splitSep
    rcases h : splitSep '\n' cs with _ | ⟨hd, t⟩
    · exact absurd h (splitSep_ne_nil '\n' cs)
    · rw [h] at ih
      by_cases hc : c = '\n'
      · subst hc
        simp [List.foldr_cons, ih]
      · simp only [if_neg hc, List.foldr_cons] at ih ⊢
        rw [List.cons_append, ih]
        simp

theorem joinNl_splitNl (s : String) : joinNl (splitNl s) = s ++ "\n" := by
  apply String.ext
  rw [splitNl, joinNl_map_mk, foldr_splitSep, str_data_app]

theorem splitSep_no_sep (sep : Char) (l : List Char) (h : sep ∉ l) :
    splitSep sep l = [l] := by
  induction l with
  | nil => rfl
  | cons c cs ih =>
    have hc : c ≠ sep := fun hc => h (hc ▸ List.mem_cons_self c cs)
    have hcs : sep ∉ cs := fun hm => h (List.mem_cons_of_mem c hm)
    unfold splitSep
    rw [ih hcs]
    simp [hc]

theorem splitNl_no_nl (s : String) (h : '\n' ∉ s.data) : splitNl s = [s] := by
  unfold splitNl
  rw [splitSep_no_sep '\n' s.data h]
  simp

theorem stripL_of_head_last (l : List Char) {a b : Char}
    (h1 : l.head? = some a) (h2 : l.getLast? = some b)
    (ha : py_isspace a = false) (hb : py_isspace b = false) :
    stripL l = l := by
  unfold stripL
  cases l with
  | nil => cases h1
  | cons x xs =>
    have hx : x = a := by simpa using h1
    subst hx
    rw [List.dropWhile_cons, if_neg (by simp [ha])]
    rcases hr : (x :: xs).reverse with _ | ⟨y, ys⟩
    · exact absurd (congrArg List.length hr) (by simp)
    · have hy : y = b := by
        have hh := List.head?_reverse (x :: xs)
        rw [hr] at hh
        rw [h2] at hh
        simpa using hh
      subst hy
      rw [List.dropWhile_cons, if_neg (by simp [hb]), ← hr, List.reverse_reverse]


/-! ### Facts about the parser's loop state -/

theorem isPrefixOf_self (l : List Char) : l.isPrefixOf l = true := by
  induction l <;> simp [List.isPrefixOf, *]

theorem isPrefixOf_self_append (xs ys : List Char) : xs.isPrefixOf (xs ++ ys) = true := by
  induction xs <;> simp [List.isPrefixOf, *]

theorem insertD_idem (d : Dict) (k v w : String) :
    insertD (insertD d k v) k w = insertD d k w := by
  funext x
  by_cases hx : x = k <;> simp [insertD, Function.update, hx]

theorem insertD_same (d : Dict) (k v : String) : insertD d k v k = some v := by
  simp [insertD, Function.update]

theorem insertD_other (d : Dict) {k k' : String} (h : k' ≠ k) (v : String) :
    insertD d k v k' = d k' := by
  simp [insertD, Function.update, h]

theorem parseStep_body (st : PState) (l : String)
    (h1 : pyStartsWith l st.next_section = false) (h2 : pyStartsWith l "----" = false) :
    parseStep st l = .ok ⟨insertD st.result st.this_section (pyStrip (st.paragraph ++ l ++ "\n")),
      st.this_section, st.next_section, st.sec, st.paragraph ++ l ++ "\n"⟩ := by
  simp [parseStep, h1, h2]

theorem parseStep_title (st : PState) (l : String) {n : String} {ns : List String}
    (h1 : pyStartsWith l st.next_section = true) (h2 : st.sec = n :: ns) :
    parseStep st l = .ok ⟨insertD (insertD st.result st.this_section (pyStrip st.paragraph))
        st.next_section "", st.next_section, n, ns, ""⟩ := by
  simp [parseStep, h1, h2]

theorem parseStep_dash (st : PState) (l : String)
    (h1 : pyStartsWith l st.next_section = false) (h2 : pyStartsWith l "----" = true) :
    parseStep st l = .ok ⟨insertD st.result st.this_section (pyStrip st.paragraph),
      st.this_section, st.next_section, st.sec, st.paragraph⟩ := by
  simp [parseStep, h1, h2]

theorem runLoop_cons (st : PState) (l : String) (ls : List String) {st' : PState}
    (h : parseStep st l = .ok st') : runLoop st (l :: ls) = runLoop st' ls := by
  simp [runLoop, h]

theorem runLoop_append (xs ys : List String) : ∀ st : PState,
    runLoop st (xs ++ ys) =
      match runLoop st xs with
      | .error e => .error e
      | .ok st' => runLoop st' ys := by
  induction xs with
  | nil => intro st; rfl
  | cons x xs ih =>
    intro st
    rw [List.cons_append]
    cases hx : parseStep st x with
    | error e =>
      have h1 : runLoop st (x :: (xs ++ ys)) = .error e := by simp [runLoop, hx]
      have h2 : runLoop st (x :: xs) = .error e := by simp [runLoop, hx]
      rw [h1, h2]
    | ok st' =>
      rw [runLoop_cons st x (xs ++ ys) hx, runLoop_cons st x xs hx, ih st']

theorem runLoop_body (ls : List String) : ∀ st : PState, ls ≠ [] →
    (∀ l ∈ ls, pyStartsWith l st.next_section = false ∧ pyStartsWith l "----" = false) →
    runLoop st ls = .ok ⟨insertD st.result st.this_section (pyStrip (st.paragraph ++ joinNl ls)),
      st.this_section, st.next_section, st.sec, st.paragraph ++ joinNl ls⟩ := by
  induction ls with
  | nil => intro st h; exact absurd rfl h
  | cons l ls ih =>
    intro st _ hcond
    obtain ⟨hc1, hc2⟩ := hcond l (List.mem_cons_self l ls)
    rw [runLoop_cons st l ls (parseStep_body st l hc1 hc2)]
    cases ls with
    | nil =>
      show Except.ok _ = _
      rw [joinNl_cons, joinNl_nil, str_append_empty, String.append_assoc]
    | cons l' ls' =>
      have hne : l' :: ls' ≠ [] := by simp
      have key := ih ⟨insertD st.result st.this_section (pyStrip (st.paragraph ++ l ++ "\n")),
          st.this_section, st.next_section, st.sec, st.paragraph ++ l ++ "\n"⟩
        hne (fun x hx => hcond x (List.mem_cons_of_mem l hx))
      rw [key]
      simp only [joinNl_cons, insertD_idem, String.append_assoc]

/-- Processing one whole serialized section block `[title, underline] ++
lines-of-s ++ [blank]`: commits the stripped running paragraph under the old
current section, then accumulates exactly `s` for the new one. -/
theorem runLoop_block (st : PState) (t dash s : String) {n : String} {ns : List String}
    (ht : st.next_section = t) (hsec : st.sec = n :: ns)
    (hdash1 : pyStartsWith dash n = false) (hdash2 : pyStartsWith dash "----" = true)
    (hbody : ∀ l ∈ splitNl s ++ [""],
      pyStartsWith l n = false ∧ pyStartsWith l "----" = false)
    (hs : pyStrip s = s) :
    runLoop st ([t, dash] ++ (splitNl s ++ [""])) =
      .ok ⟨insertD (insertD st.result st.this_section (pyStrip st.paragraph)) t s,
        t, n, ns, s ++ "\n" ++ "\n"⟩ := by
  have htt : pyStartsWith t st.next_section = true := by
    rw [ht]
    unfold pyStartsWith
    exact isPrefixOf_self _
  rw [show ([t, dash] ++ (splitNl s ++ [""])) = t :: dash :: (splitNl s ++ [""]) from rfl]
  rw [runLoop_cons _ _ _ (parseStep_title st t htt hsec)]
  rw [ht]
  set st1 : PState :=
    ⟨insertD (insertD st.result st.this_section (pyStrip st.paragraph)) t "", t, n, ns, ""⟩
    with hst1
  have hd : parseStep st1 dash = .ok st1 := by
    have := parseStep_dash st1 dash (by simpa [hst1] using hdash1) hdash2
    simpa [hst1, pyStrip_empty, insertD_idem] using this
  rw [runLoop_cons _ _ _ hd]
  have hne : splitNl s ++ [""] ≠ [] := by simp
  rw [runLoop_body _ _ hne (by simpa [hst1] using hbody)]
  have hjoin : joinNl (splitNl s ++ [""]) = s ++ "\n" ++ "\n" := by
    rw [joinNl_append, joinNl_splitNl, joinNl_cons, joinNl_nil, str_append_empty,
      str_empty_append]
  have hstrip : pyStrip (s ++ "\n" ++ "\n") = s := by
    rw [pyStrip_append_nl, pyStrip_append_nl, hs]
  simp [hst1, hjoin, str_empty_append, hstrip, insertD_idem]

/-! ### C3: keyword intersection -/

theorem hasKeywords_iff (e : Entry) (q : String) :
    has_keywords e q = true ↔ ∃ t, t ∈ kwTokens q ∧ t ∈ kwTokens e.keywords := by
  unfold has_keywords
  rw [List.any_eq_true]
  constructor
  · rintro ⟨t, ht, hc⟩
    exact ⟨t, ht, by simpa using hc⟩
  · rintro ⟨t, ht, hm⟩
    exact ⟨t, ht, by simpa using hm⟩

/-- C3, corrected.  `has_keywords` splits both the query and the record's
`keywords` on commas, strips each token, and returns true iff the token sets
intersect; `HasKeywords("a, b")` is true on `keywords="b,c"` and false on
`keywords="x,y"`.  On `keywords=""` the record's token set is `{""}`, so the
result is true exactly when some comma-token of the query strips to the
empty string (and false for every other non-empty query). -/
theorem c3_keyword_intersection :
    (∀ (e : Entry) (q : String),
      has_keywords e q = true ↔ ∃ t, t ∈ kwTokens q ∧ t ∈ kwTokens e.keywords)
    ∧ has_keywords (mkKw "b,c") "a, b" = true
    ∧ has_keywords (mkKw "x,y") "a, b" = false
    ∧ (∀ q : String, has_keywords (mkKw "") q = true ↔ "" ∈ kwTokens q) := by
  refine ⟨hasKeywords_iff, by decide, by decide, ?_⟩
  intro q
  rw [hasKeywords_iff]
  have hk : kwTokens (mkKw "").keywords = [""] := by decide
  rw [hk]
  simp

/-- C3, counterexample to the claim as stated: on a record with
`keywords=""`, the non-empty query `","` splits into two tokens that both
strip to `""`, which intersects the record's own `{""}` token set, so
`has_keywords` returns `true`, not `false`. -/
theorem c3_empty_keywords_query_comma :
    has_keywords (mkKw "") "," = true ∧ ("," : String) ≠ "" := by
  constructor <;> decide

/-! ### C6: filter composition -/

/-- C6, confirmed.  The three optional filters of `get_entries` are
independently composable and order-independent: project-then-keyword equals
keyword-then-project (same list, same order); with every filter omitted the
input passes through unchanged; and any filter combination yields a sublist
of its input (stable filtering preserves relative order). -/
theorem c6_filter_composition :
    (∀ (es : List Entry) (P K : String),
      filter_entries (some P) none (some K) es
        = filter_entries none none (some K) (filter_entries (some P) none none es))
    ∧ (∀ (es : List Entry) (P K : String),
      filter_entries (some P) none (some K) es
        = filter_entries (some P) none none (filter_entries none none (some K) es))
    ∧ (∀ es : List Entry, filter_entries none none none es = es)
    ∧ (∀ (es : List Entry) (p d k : Option String), (filter_entries p d k es).Sublist es) := by
  refine ⟨fun es P K => rfl, ?_, fun es => rfl, ?_⟩
  · intro es P K
    show (es.filter fun e => e.project == P).filter (fun e => has_keywords e K)
      = (es.filter fun e => has_keywords e K).filter (fun e => e.project == P)
    rw [List.filter_filter, List.filter_filter]
    congr 1
    funext e
    exact Bool.and_comm _ _
  · intro es p d k
    unfold filter_entries
    cases p <;> cases d <;> cases k <;>
      first
      | exact List.Sublist.refl _
      | exact List.filter_sublist _
      | exact (List.filter_sublist _).trans (List.filter_sublist _)
      | exact ((List.filter_sublist _).trans (List.filter_sublist _)).trans
          (List.filter_sublist _)

/-! ### C10: to_file truncates before validating the date -/

/-- C10, amended.  Whenever `get_date` fails (no cached `date_str` and a
`date` field the slice-parse/`datetime.date` computation rejects),
`to_file` raises only after `open(..., 'w')` has emptied the target file:
the on-disk content on this error path is the empty file, which differs
from any non-empty prior content. -/
theorem c10_truncate_on_error (e : Entry) (h1 : e.date_str = none)
    (h2 : strftimeBdY e.date = none) :
    to_file_fs e = (true, []) ∧ ∀ prior : List String, prior ≠ [] → (to_file_fs e).2 ≠ prior := by
  have hg : get_date e = none := by
    unfold get_date
    rw [h1, h2]
  have hfs : to_file_fs e = (true, []) := by simp [to_file_fs, hg]
  refine ⟨hfs, ?_⟩
  intro prior hp
  rw [hfs]
  intro hc
  exact hp hc.symm

theorem c10_truncate_on_error_witness :
    to_file_fs { baseEntry with date := "abcdef" } = (true, []) :=
  (c10_truncate_on_error { baseEntry with date := "abcdef" } rfl (by decide)).1

/-- C10, counterexample to the claim as stated: `"17081"` is not a valid
6-digit YYMMDD date, yet slicing gives `int('17') = 17`, `int('08') = 8`,
`int('1') = 1`, a valid `datetime.date`, so `to_file` does *not* raise — it
happily writes the file with the header `August 01, 2017`. -/
theorem c10_short_date_no_error :
    validYYMMDD "17081" = false
    ∧ (to_file_fs { baseEntry with date := "17081" }).1 = false
    ∧ get_date { baseEntry with date := "17081" } = some "August 01, 2017" := by
  refine ⟨by decide, ?_, by decide⟩
  have : get_date { baseEntry with date := "17081" } = some "August 01, 2017" := by decide
  simp [to_file_fs, this]

/-! ### C5: prefix-match section boundaries -/

/-- C5, confirmed.  Any line starting with the next expected section title —
even a body line that merely has the title as a prefix — is a section
boundary: the accumulated paragraph is stripped and committed under the
current section and accumulation switches to the next section (first
conjunct, for every parser state whose title stack is nonempty).  In the
concrete quirk file a `Log Entry` body line beginning with `Summary` ends
the Log Entry section right there (second conjunct). -/
theorem c5_prefix_boundary :
    (∀ (st : PState) (l n : String) (ns : List String),
      st.sec = n :: ns → pyStartsWith l st.next_section = true →
      parseStep st l = .ok ⟨insertD (insertD st.result st.this_section (pyStrip st.paragraph))
          st.next_section "", st.next_section, n, ns, ""⟩)
    ∧ Except.map (fun e => (e.log, e.summary)) (entry_load "q.md" quirkLines)
        = .ok ("working on stuff", "Summary\nfine") := by
  refine ⟨?_, by decide⟩
  intro st l n ns h1 h2
  exact parseStep_title st l h2 h1

theorem c5_prefix_boundary_witness :
    parseStep ⟨fun _ => none, "Location", "Project", ["Keywords"], "hi\n"⟩ "Project X" =
      .ok ⟨insertD (insertD (fun _ => none) "Location" (pyStrip "hi\n")) "Project" "",
        "Project", "Keywords", [], ""⟩ :=
  c5_prefix_boundary.1 ⟨fun _ => none, "Location", "Project", ["Keywords"], "hi\n"⟩
    "Project X" "Keywords" [] rfl (by decide)

/-! ### C9: lines after the Next section -/

/-- C9, amended.  After the parser has reached `Next`, every further line
that neither starts with `----` (dropped as underline decoration) nor with
the internal sentinel `'never find me'` is appended to the Next paragraph
and parsing cannot fail (first conjunct).  But the sentinel does exist: a
line starting with `'never find me'` pops the by-then-empty section stack,
an `IndexError` that aborts the parse (second conjunct). -/
theorem c9_after_next :
    (∀ (st : PState) (ls : List String), st.this_section = "Next" →
      st.next_section = "never find me" → ls ≠ [] →
      (∀ l ∈ ls, pyStartsWith l "never find me" = false ∧ pyStartsWith l "----" = false) →
      runLoop st ls = .ok ⟨insertD st.result "Next" (pyStrip (st.paragraph ++ joinNl ls)),
        "Next", "never find me", st.sec, st.paragraph ++ joinNl ls⟩)
    ∧ (∀ (st : PState) (l : String) (ls : List String), st.sec = [] →
      pyStartsWith l st.next_section = true →
      runLoop st (l :: ls) = .error .indexError) := by
  constructor
  · intro st ls h1 h2 hne hcond
    have hb := runLoop_body ls st hne (by rw [h2]; exact hcond)
    rw [hb, h1, h2]
  · intro st l ls h1 h2
    have hstep : parseStep st l = .error .indexError := by
      unfold parseStep
      rw [if_pos h2, h1]
    simp [runLoop, hstep]

theorem c9_after_next_witness :
    runLoop ⟨fun _ => none, "Next", "never find me", [], ""⟩ ["more notes"] =
      .ok ⟨insertD (fun _ => none) "Next" (pyStrip ("" ++ joinNl ["more notes"])),
        "Next", "never find me", [], "" ++ joinNl ["more notes"]⟩ :=
  c9_after_next.1 ⟨fun _ => none, "Next", "never find me", [], ""⟩ ["more notes"]
    rfl rfl (by simp) (by decide)

/-- C9, counterexample to the claim as stated: appending the single content
line `"never find me, you said?"` after the `Next` section of an otherwise
valid file makes the parse fail (`sec.pop()` on an empty list, reported as
the catch-all `unknown error`), so not every post-`Next` line is harmlessly
appended. -/
theorem c9_sentinel_line_fails :
    entry_load "f.md" sentinelLines = .error "unknown error parsing f.md"
    ∧ (entry_load "f.md" sampleLines).toOption.isSome = true := by
  constructor <;> decide

/-! ### C4: fatal parse errors -/

theorem mapEntries_error (f : String → Except String Entry) :
    ∀ (l : List String) (x : String), x ∈ l → (∃ m, f x = .error m) →
      ∃ m, mapEntries f l = .error m := by
  intro l
  induction l with
  | nil => intro x hx; cases hx
  | cons a l ih =>
    intro x hx hex
    rcases List.mem_cons.mp hx with rfl | hmem
    · obtain ⟨m, hm⟩ := hex
      exact ⟨m, by simp [mapEntries, hm]⟩
    · cases ha : f a with
      | error e => exact ⟨e, by simp [mapEntries, ha]⟩
      | ok v =>
        obtain ⟨m, hm⟩ := ih x hmem hex
        exact ⟨m, by simp [mapEntries, ha, hm]⟩

/-- C4, amended.  A file truncated before its `Next` section fails fatally
with an error naming the file and the `'Next'` section (first conjunct); a
file whose first line does not parse as `Month DD, YYYY` also fails fatally,
but through the catch-all `unknown error parsing <file>` message, which
identifies the file only, not a section (second conjunct); and any failing
file aborts the whole `get_entries` listing with no partial results (third
conjunct). -/
theorem c4_parse_errors :
    entry_load "f.md" (sampleLines.take 32) = .error "error parsing 'Next' section of f.md"
    ∧ entry_load "g.md" ["garbage", "x"] = .error "unknown error parsing g.md"
    ∧ (∀ (dir : Dir) (p d k : Option String) (today f : String),
        f ∈ mdSorted dir → (∃ m, loadEntryFile dir today f = .error m) →
        ∃ m, get_entries dir p d k today = .error m) := by
  refine ⟨by decide, by decide, ?_⟩
  intro dir p d k today f hmem hex
  obtain ⟨m, hm⟩ := mapEntries_error (loadEntryFile dir today) (mdSorted dir) f hmem hex
  exact ⟨m, by simp [get_entries, hm, bind, Except.bind]⟩

theorem c4_parse_errors_witness :
    ∃ m, get_entries dirBad none none none "230101" = .error m :=
  c4_parse_errors.2.2 dirBad none none none "230101" "bad.md" (by decide)
    ⟨"unknown error parsing bad.md", by decide⟩

/-- C4, counterexample to the claim as stated: the malformed-date file
`["garbage", "x"]` aborts with `unknown error parsing g.md` — an error that
identifies the file but does not name any of the ten section keys, against
the claim that every malformed input yields an error naming the missing or
malformed section. -/
theorem c4_malformed_date_no_section_name :
    entry_load "g.md" ["garbage", "x"] = .error "unknown error parsing g.md"
    ∧ (["Date", "Location", "Project", "Keywords", "Goal", "Log Entry", "Summary",
        "Attachments", "Previous", "Next"].all
        fun t => !containsSub ("unknown error parsing g.md").data t.data) = true := by
  constructor <;> decide

/-! ### The filename order and the sorted listing -/

theorem listLe_refl (l : List Char) : listLe l l = true := by
  induction l with
  | nil => rfl
  | cons a as ih => simp [listLe, lt_irrefl, ih]

theorem listLe_total (a : List Char) : ∀ b, listLe a b = true ∨ listLe b a = true := by
  induction a with
  | nil => intro b; left; rfl
  | cons x xs ih =>
    intro b
    cases b with
    | nil => right; rfl
    | cons y ys =>
      rcases lt_trichotomy x y with h | h | h
      · left; simp [listLe, h]
      · subst h
        rcases ih ys with hh | hh
        · left; simp [listLe, lt_irrefl, hh]
        · right; simp [listLe, lt_irrefl, hh]
      · right; simp [listLe, h]

theorem listLe_trans : ∀ (a b c : List Char),
    listLe a b = true → listLe b c = true → listLe a c = true := by
  intro a
  induction a with
  | nil => intro b c _ _; rfl
  | cons x xs ih =>
    intro b c h1 h2
    cases b with
    | nil => simp [listLe] at h1
    | cons y ys =>
      cases c with
      | nil => simp [listLe] at h2
      | cons z zs =>
        simp only [listLe] at h1 h2 ⊢
        by_cases h1a : x < y
        · by_cases h2a : y < z
          · simp [lt_trans h1a h2a]
          · by_cases h2b : z < y
            · simp [h2a, h2b] at h2
            · have hyz : y = z := le_antisymm (not_lt.mp h2b) (not_lt.mp h2a)
              subst hyz
              simp [h1a]
        · by_cases h1b : y < x
          · simp [h1a, h1b] at h1
          · have hxy : x = y := le_antisymm (not_lt.mp h1b) (not_lt.mp h1a)
            subst hxy
            simp only [lt_irrefl, if_false] at h1
            by_cases h2a : x < z
            · simp [h2a]
            · by_cases h2b : z < x
              · simp [h2a, h2b] at h2
              · have hxz : x = z := le_antisymm (not_lt.mp h2b) (not_lt.mp h2a)
                subst hxz
                simp only [lt_irrefl, if_false] at h2 ⊢
                exact ih ys zs h1 h2

instance : IsTotal String pyLe := ⟨fun a b => listLe_total a.data b.data⟩

instance : IsTrans String pyLe := ⟨fun a b c h1 h2 => listLe_trans a.data b.data c.data h1 h2⟩

instance : IsRefl String pyLe := ⟨fun a => listLe_refl a.data⟩

theorem mdSorted_sorted (dir : Dir) : List.Sorted pyLe (mdSorted dir) :=
  List.sorted_insertionSort pyLe _

theorem mem_mdSorted {dir : Dir} {f : String} (h : f ∈ mdSorted dir) :
    f ∈ dir.map Prod.fst := by
  have hp := List.perm_insertionSort pyLe ((dir.map Prod.fst).filter fun g => pyEndsWith g ".md")
  exact (List.mem_filter.mp (hp.mem_iff.mp h)).1

theorem lookupDir_of_mem {dir : Dir} {f : String} (h : f ∈ dir.map Prod.fst) :
    ∃ ls, lookupDir dir f = some ls := by
  induction dir with
  | nil => cases h
  | cons p rest ih =>
    by_cases hf : p.1 = f
    · exact ⟨p.2, by simp [lookupDir, List.find?_cons, hf]⟩
    · have hmem : f ∈ rest.map Prod.fst := by
        rcases List.mem_cons.mp h with h' | h'
        · exact absurd h'.symm hf
        · exact h'
      obtain ⟨ls, hls⟩ := ih hmem
      refine ⟨ls, ?_⟩
      unfold lookupDir at hls ⊢
      rw [List.find?_cons]
      have : (p.1 == f) = false := by simp [hf]
      rw [this]
      exact hls

/-! ### Inversion facts for loading entries -/

theorem exceptBind_ok {α β : Type} {x : Except String α} {g : α → Except String β} {b : β}
    (h : (x >>= g) = .ok b) : ∃ a, x = .ok a ∧ g a = .ok b := by
  cases x with
  | error e => simp [bind, Except.bind] at h
  | ok a => exact ⟨a, rfl, by simpa [bind, Except.bind] using h⟩

theorem entry_load_fields {f : String} {ls : List String} {e : Entry}
    (h : entry_load f ls = .ok e) :
    e.filename = f ∧ e.folder = entry_dir ∧ e.date_str.isSome = true := by
  unfold entry_load at h
  cases hp : parse_sections ls with
  | error pe =>
    rw [hp] at h
    exact Except.noConfusion h
  | ok c =>
    rw [hp] at h
    obtain ⟨date, _, h⟩ := exceptBind_ok h
    obtain ⟨dstr, _, h⟩ := exceptBind_ok h
    obtain ⟨loc, _, h⟩ := exceptBind_ok h
    obtain ⟨proj, _, h⟩ := exceptBind_ok h
    obtain ⟨kw, _, h⟩ := exceptBind_ok h
    obtain ⟨goal, _, h⟩ := exceptBind_ok h
    obtain ⟨lg, _, h⟩ := exceptBind_ok h
    obtain ⟨sm, _, h⟩ := exceptBind_ok h
    obtain ⟨att, _, h⟩ := exceptBind_ok h
    obtain ⟨pv, _, h⟩ := exceptBind_ok h
    obtain ⟨nx, _, h⟩ := exceptBind_ok h
    cases h
    exact ⟨rfl, rfl, rfl⟩

theorem loadEntryFile_filename {dir : Dir} {today f : String} {e : Entry}
    (h : loadEntryFile dir today f = .ok e) : e.filename = f := by
  unfold loadEntryFile entry_init at h
  simp only [bind, Except.bind, Option.getD] at h
  cases hl : lookupDir dir f with
  | none =>
    rw [hl] at h
    cases h
    rfl
  | some ls =>
    rw [hl] at h
    exact (entry_load_fields h).1

theorem loadEntryFile_hydrated {dir : Dir} {today f : String} {e : Entry}
    (hmem : f ∈ dir.map Prod.fst) (h : loadEntryFile dir today f = .ok e) :
    e.date_str.isSome = true := by
  obtain ⟨ls, hls⟩ := lookupDir_of_mem hmem
  unfold loadEntryFile entry_init at h
  simp only [bind, Except.bind, Option.getD] at h
  rw [hls] at h
  exact (entry_load_fields h).2.2

theorem mapEntries_ok_spec (f : String → Except String Entry)
    (hf : ∀ x e, f x = .ok e → e.filename = x) :
    ∀ (l : List String) (es : List Entry), mapEntries f l = .ok es →
      es.map (·.filename) = l ∧ ∀ e ∈ es, f e.filename = .ok e := by
  intro l
  induction l with
  | nil =>
    intro es h
    simp only [mapEntries] at h
    cases h
    simp
  | cons a l ih =>
    intro es h
    unfold mapEntries at h
    cases ha : f a with
    | error m => rw [ha] at h; exact Except.noConfusion h
    | ok v =>
      rw [ha] at h
      cases hl : mapEntries f l with
      | error m => rw [hl] at h; exact Except.noConfusion h
      | ok vs =>
        rw [hl] at h
        cases h
        obtain ⟨ih1, ih2⟩ := ih vs hl
        have hv : v.filename = a := hf a v ha
        constructor
        · simp [ih1, hv]
        · intro e he
          rcases List.mem_cons.mp he with rfl | hm
          · rw [hv]; exact ha
          · exact ih2 e hm

theorem get_entries_ok_inv {dir : Dir} {p d k : Option String} {today : String}
    {es : List Entry} (h : get_entries dir p d k today = .ok es) :
    ∃ es0, mapEntries (loadEntryFile dir today) (mdSorted dir) = .ok es0
      ∧ es = filter_entries p d k es0 := by
  unfold get_entries at h
  cases hm : mapEntries (loadEntryFile dir today) (mdSorted dir) with
  | error m =>
    rw [hm] at h
    exact Except.noConfusion h
  | ok es0 =>
    rw [hm] at h
    refine ⟨es0, rfl, ?_⟩
    cases h
    rfl

theorem filter_entries_sublist (p d k : Option String) (es : List Entry) :
    (filter_entries p d k es).Sublist es := by
  unfold filter_entries
  cases p <;> cases d <;> cases k <;>
    first
    | exact List.Sublist.refl _
    | exact List.filter_sublist _
    | exact (List.filter_sublist _).trans (List.filter_sublist _)
    | exact ((List.filter_sublist _).trans (List.filter_sublist _)).trans
        (List.filter_sublist _)

theorem get_entries_spec {dir : Dir} {p d k : Option String} {today : String}
    {es : List Entry} (h : get_entries dir p d k today = .ok es) :
    List.Sorted pyLe (es.map (·.filename))
    ∧ (∀ e ∈ es, loadEntryFile dir today e.filename = .ok e)
    ∧ (∀ e ∈ es, e.filename ∈ mdSorted dir) := by
  obtain ⟨es0, h0, rfl⟩ := get_entries_ok_inv h
  obtain ⟨hnames, hload⟩ :=
    mapEntries_ok_spec _ (fun x e hx => loadEntryFile_filename hx) (mdSorted dir) es0 h0
  have hsub : (filter_entries p d k es0).Sublist es0 := filter_entries_sublist p d k es0
  refine ⟨?_, ?_, ?_⟩
  · have : ((filter_entries p d k es0).map (·.filename)).Sublist (es0.map (·.filename)) :=
      hsub.map _
    rw [hnames] at this
    exact List.Pairwise.sublist this (mdSorted_sorted dir)
  · intro e he
    exact hload e (hsub.subset he)
  · intro e he
    rw [← hnames]
    exact List.mem_map_of_mem _ (hsub.subset he)

/-! ### C8: constructor defaults -/

/-- C8, confirmed.  In the blank-construction path of `entry.__init__`
(no file with the resolved name exists): an unset date defaults to today's
YYMMDD date, an unset filename defaults to `<date>_<project>.md`, an unset
project keeps the signature default `"entry"`, and unset keywords default to
the empty string — in particular project-and-filename both unset yield
project `"entry"` and filename `<date>_entry.md`. -/
theorem c8_constructor_defaults :
    (∀ (dir : Dir) (today p kw loc pv nx : String),
      lookupDir dir (today ++ "_" ++ p ++ ".md") = none →
      entry_init dir none none loc (some p) (some kw) pv nx today =
        .ok { folder := entry_dir, filename := today ++ "_" ++ p ++ ".md", date := today,
              date_str := none, location := loc, project := p, keywords := kw, goal := "",
              log := "", summary := "", attachments := "", previous := pv, next := nx })
    ∧ (∀ (dir : Dir) (today d : String),
      lookupDir dir (d ++ "_entry.md") = none →
      entry_init dir none (some d) "" (some "entry") (some "") "" "" today =
        .ok { folder := entry_dir, filename := d ++ "_entry.md", date := d, date_str := none,
              location := "", project := "entry", keywords := "", goal := "", log := "",
              summary := "", attachments := "", previous := "", next := "" }) := by
  constructor
  · intro dir today p kw loc pv nx hfresh
    unfold entry_init
    simp only [bind, Except.bind, Option.getD, hfresh]
  · intro dir today d hfresh
    have hcat : (d ++ "_" ++ "entry" ++ ".md") = d ++ "_entry.md" := by
      rw [String.append_assoc, String.append_assoc]
      have : ("_" : String) ++ ("entry" ++ ".md") = "_entry.md" := by decide
      rw [this]
    unfold entry_init
    simp only [bind, Except.bind, Option.getD, hcat, hfresh]

theorem c8_constructor_defaults_witness :
    entry_init [] none none "" (some "p") (some "k") "" "" "230102" =
      .ok { folder := entry_dir, filename := "230102" ++ "_" ++ "p" ++ ".md", date := "230102",
            date_str := none, location := "", project := "p", keywords := "k", goal := "",
            log := "", summary := "", attachments := "", previous := "", next := "" } :=
  c8_constructor_defaults.1 [] "230102" "p" "k" "" "" "" rfl

/-! ### C7: listing returns the sorted markdown files -/

/-- C7, confirmed.  With every filter omitted, `get_entries` parses exactly
the `.md` files of the directory: the filenames of the result equal the
lexicographically ascending sort of the `.md`-suffixed directory listing,
in sorted order, each entry being the parse of its own file (first
conjunct); on the concrete directory (three entry files listed out of order
plus a `.txt` file) the result order is
`161231_a.md, 170101_a.md, 170102_a.md` (second conjunct). -/
theorem c7_list_entries :
    (∀ (dir : Dir) (today : String) (es : List Entry),
      get_entries dir none none none today = .ok es →
      es.map (·.filename) = mdSorted dir
      ∧ List.Sorted pyLe (es.map (·.filename))
      ∧ ∀ e ∈ es, loadEntryFile dir today e.filename = .ok e)
    ∧ Except.map (fun es => es.map (·.filename)) (get_entries dir3 none none none "230101")
        = .ok ["161231_a.md", "170101_a.md", "170102_a.md"] := by
  constructor
  · intro dir today es h
    obtain ⟨es0, h0, hes⟩ := get_entries_ok_inv h
    obtain ⟨hnames, _⟩ :=
      mapEntries_ok_spec _ (fun x e hx => loadEntryFile_filename hx) (mdSorted dir) es0 h0
    obtain ⟨hsorted, hload, _⟩ := get_entries_spec h
    subst hes
    exact ⟨hnames, hsorted, hload⟩
  · decide

theorem c7_list_entries_witness :
    get_entries dir3 none none none "230101" =
      .ok [sampleEntry "161231_a.md", sampleEntry "170101_a.md", sampleEntry "170102_a.md"]
    ∧ ([sampleEntry "161231_a.md", sampleEntry "170101_a.md",
        sampleEntry "170102_a.md"].map (·.filename)) = mdSorted dir3 := by
  refine ⟨by decide, ?_⟩
  exact (c7_list_entries.1 dir3 "230101"
    [sampleEntry "161231_a.md", sampleEntry "170101_a.md", sampleEntry "170102_a.md"]
    (by decide)).1

/-! ### Directory writes -/

theorem find_replace_same (f : String) (ls : List String) :
    ∀ dir : Dir, dir.any (fun p => p.1 == f) = true →
      List.find? (fun p => p.1 == f) (dir.map fun p => if p.1 == f then (f, ls) else p)
        = some (f, ls) := by
  intro dir
  induction dir with
  | nil => intro h; cases h
  | cons q rest ih =>
    intro h
    rw [List.map_cons]
    by_cases hq : q.1 = f
    · rw [if_pos (by simp [hq])]
      exact List.find?_cons_of_pos _ (by simp)
    · rw [if_neg (by simp [hq]), List.find?_cons_of_neg _ (by simp [hq])]
      apply ih
      rw [List.any_cons] at h
      simpa [hq] using h

theorem find_replace_other {f g : String} (h : g ≠ f) (ls : List String) :
    ∀ dir : Dir,
      List.find? (fun p => p.1 == g) (dir.map fun p => if p.1 == f then (f, ls) else p)
        = List.find? (fun p => p.1 == g) dir := by
  intro dir
  induction dir with
  | nil => rfl
  | cons q rest ih =>
    rw [List.map_cons]
    by_cases hq : q.1 = f
    · rw [if_pos (by simp [hq])]
      rw [List.find?_cons_of_neg _ (by simpa using Ne.symm h),
        List.find?_cons_of_neg _ (by simpa [hq] using Ne.symm h)]
      exact ih
    · rw [if_neg (by simp [hq])]
      by_cases hg : q.1 = g
      · rw [List.find?_cons_of_pos _ (by simp [hg]), List.find?_cons_of_pos _ (by simp [hg])]
      · rw [List.find?_cons_of_neg _ (by simp [hg]), List.find?_cons_of_neg _ (by simp [hg])]
        exact ih

theorem lookupDir_updateDir_same (dir : Dir) (f : String) (ls : List String) :
    lookupDir (updateDir dir f ls) f = some ls := by
  unfold updateDir lookupDir
  by_cases hany : dir.any (fun p => p.1 == f) = true
  · rw [if_pos hany, find_replace_same f ls dir hany]
    rfl
  · rw [if_neg hany, List.find?_append]
    have hnone : List.find? (fun p => p.1 == f) dir = none := by
      rw [List.find?_eq_none]
      intro x hx hpx
      exact hany (List.any_eq_true.mpr ⟨x, hx, hpx⟩)
    rw [hnone]
    simp [List.find?]

theorem lookupDir_updateDir_other (dir : Dir) {f g : String} (h : g ≠ f) (ls : List String) :
    lookupDir (updateDir dir f ls) g = lookupDir dir g := by
  unfold updateDir lookupDir
  by_cases hany : dir.any (fun p => p.1 == f) = true
  · rw [if_pos hany, find_replace_other h ls dir]
  · rw [if_neg hany, List.find?_append]
    have : List.find? (fun p => p.1 == g) [(f, ls)] = none := by
      rw [List.find?_eq_none]
      intro x hx
      simp at hx
      subst hx
      simpa using Ne.symm h
    rw [this]
    cases List.find? (fun p => p.1 == g) dir <;> rfl

theorem mem_of_getLast {α : Type} : ∀ (l : List α) (a : α), l.getLast? = some a → a ∈ l := by
  intro l
  induction l with
  | nil => intro a h; cases h
  | cons x xs ih =>
    intro a h
    cases xs with
    | nil =>
      have : x = a := by simpa using h
      subst this
      exact List.mem_cons_self x []
    | cons y ys =>
      rw [List.getLast?_cons_cons] at h
      exact List.mem_cons_of_mem x (ih a h)

theorem sorted_getLast_max : ∀ (l : List Entry) (a : Entry),
    List.Sorted pyLe (l.map (·.filename)) → l.getLast? = some a →
    ∀ x ∈ l, pyLe x.filename a.filename := by
  intro l
  induction l with
  | nil => intro a _ h; cases h
  | cons e es ih =>
    intro a hs hl x hx
    cases es with
    | nil =>
      have hae : e = a := by simpa using hl
      subst hae
      have hxe : x = e := by simpa using hx
      subst hxe
      exact listLe_refl _
    | cons e2 es2 =>
      rw [List.getLast?_cons_cons] at hl
      rw [List.map_cons, List.sorted_cons] at hs
      rcases List.mem_cons.mp hx with rfl | hx2
      · exact hs.1 a.filename (List.mem_map_of_mem _ (mem_of_getLast _ a hl))
      · exact ih a hs.2 hl x hx2

/-! ### C2: creating and linking a new entry -/

/-- C2, confirmed.  `command_new` with a supplied project and no `--date`:
when the project's entry list is nonempty it links against its last element
`old` — that element's filename is lexicographically maximal among the
project's entries, the new record's `previous` becomes `old.filename`, and
`old` is rewritten to disk with its `next` field set to the new record's
filename (first conjunct).  When no entry of the project exists, the new
record keeps its empty `previous` (second conjunct).  With an explicit
`--date` no linking happens at all: only the new file itself is written and
every other file is untouched (third conjunct). -/
theorem c2_create_and_link :
    (∀ (dir : Dir) (P today : String) (kOpt : Option String) (new0 old : Entry)
        (olds : List Entry),
      entry_init dir none none "" (some P) kOpt "" "" today = .ok new0 →
      get_entries dir (some P) none none today = .ok olds →
      olds.getLast? = some old →
      (get_date new0).isSome = true →
      new0.filename ≠ old.filename →
      ∃ dir2,
        command_new dir none (some P) kOpt today
          = .ok (dir2, { new0 with previous := old.filename })
        ∧ lookupDir dir2 old.filename = to_file_lines { old with next := new0.filename }
        ∧ ∀ x ∈ olds, pyLe x.filename old.filename)
    ∧ (∀ (dir : Dir) (P today : String) (kOpt : Option String) (new0 : Entry),
      entry_init dir none none "" (some P) kOpt "" "" today = .ok new0 →
      get_entries dir (some P) none none today = .ok [] →
      (get_date new0).isSome = true →
      lookupDir dir (today ++ "_" ++ P ++ ".md") = none →
      new0.previous = "" ∧ ∃ dir1, command_new dir none (some P) kOpt today = .ok (dir1, new0))
    ∧ (∀ (dir : Dir) (D today : String) (pOpt kOpt : Option String) (new0 : Entry),
      entry_init dir none (some D) "" pOpt kOpt "" "" today = .ok new0 →
      (get_date new0).isSome = true →
      ∃ dir1, command_new dir (some D) pOpt kOpt today = .ok (dir1, new0)
        ∧ ∀ g, g ≠ new0.filename → lookupDir dir1 g = lookupDir dir g) := by
  refine ⟨?_, ?_, ?_⟩
  · intro dir P today kOpt new0 old olds hinit hget hlast hgd hne
    obtain ⟨hsorted, hload, hmd⟩ := get_entries_spec hget
    have hmem : old ∈ olds := mem_of_getLast olds old hlast
    have hdstr : old.date_str.isSome = true :=
      loadEntryFile_hydrated (mem_mdSorted (hmd old hmem)) (hload old hmem)
    obtain ⟨s, hs⟩ := Option.isSome_iff_exists.mp hdstr
    have hgdold : get_date { old with next := new0.filename } = some s := by
      simp [get_date, hs]
    obtain ⟨ds2, hds2⟩ := Option.isSome_iff_exists.mp hgd
    have hgdnew : get_date { new0 with previous := old.filename } = some ds2 := hds2
    refine ⟨updateDir (updateDir dir old.filename
        (serializeLines { old with next := new0.filename } s)) new0.filename
        (serializeLines { new0 with previous := old.filename } ds2), ?_, ?_, ?_⟩
    · unfold command_new
      simp only [bind, Except.bind, hinit, Option.isNone_none, if_true, hget, hlast,
        writeEntry, hgdold, hgdnew]
    · rw [lookupDir_updateDir_other _ (fun hc => hne hc.symm) _,
        lookupDir_updateDir_same]
      simp [to_file_lines, hgdold]
    · exact sorted_getLast_max olds old hsorted hlast
  · intro dir P today kOpt new0 hinit hget hgd hfresh
    have hnew : new0 =
        { folder := entry_dir, filename := today ++ "_" ++ P ++ ".md", date := today,
          date_str := none, location := "", project := P, keywords := kOpt.getD "",
          goal := "", log := "", summary := "", attachments := "", previous := "",
          next := "" } := by
      unfold entry_init at hinit
      simp only [bind, Except.bind, Option.getD, hfresh] at hinit
      exact (Except.ok.inj hinit).symm
    obtain ⟨ds2, hds2⟩ := Option.isSome_iff_exists.mp hgd
    constructor
    · rw [hnew]
    · refine ⟨updateDir dir new0.filename (serializeLines new0 ds2), ?_⟩
      unfold command_new
      simp only [bind, Except.bind, hinit, Option.isNone_none, if_true, hget,
        List.getLast?_nil, writeEntry, hds2]
  · intro dir D today pOpt kOpt new0 hinit hgd
    obtain ⟨ds2, hds2⟩ := Option.isSome_iff_exists.mp hgd
    refine ⟨updateDir dir new0.filename (serializeLines new0 ds2), ?_, ?_⟩
    · unfold command_new
      simp only [bind, Except.bind, hinit, Option.isNone_some, Bool.false_eq_true, if_false,
        writeEntry, hds2]
    · intro g hg
      exact lookupDir_updateDir_other dir hg _

theorem c2_create_and_link_witness :
    ∃ dir2,
      command_new dirP none (some "p") none "230102"
        = .ok (dir2, { entry2W with previous := (sampleEntry "230101_p.md").filename })
      ∧ lookupDir dir2 (sampleEntry "230101_p.md").filename
        = to_file_lines { sampleEntry "230101_p.md" with next := entry2W.filename }
      ∧ ∀ x ∈ [sampleEntry "230101_p.md"],
          pyLe x.filename (sampleEntry "230101_p.md").filename :=
  c2_create_and_link.1 dirP "p" "230102" none entry2W (sampleEntry "230101_p.md")
    [sampleEntry "230101_p.md"] (by decide) (by decide) (by decide) (by decide) (by decide)

/-! ### Digits and the date round trip -/

theorem char_isDigit_toNat {c : Char} (h : c.isDigit = true) :
    48 ≤ c.toNat ∧ c.toNat ≤ 57 := by
  simp [Char.isDigit] at h
  exact h

theorem digitChar_isDigit {k : Nat} (h : k < 10) : (digitChar k).isDigit = true := by
  interval_cases k <;> decide

theorem digitChar_not_space {k : Nat} (h : k < 10) : py_isspace (digitChar k) = false := by
  interval_cases k <;> decide

theorem digitChar_ne_nl {k : Nat} (h : k < 10) : digitChar k ≠ '\n' := by
  interval_cases k <;> decide

theorem digitChar_toNat {k : Nat} (h : k < 10) : (digitChar k).toNat = 48 + k := by
  interval_cases k <;> decide

theorem digitChar_toNat_sub {c : Char} (h : c.isDigit = true) :
    digitChar (c.toNat - 48) = c := by
  have hb := char_isDigit_toNat h
  unfold digitChar
  have h48 : 48 + (c.toNat - 48) = c.toNat := by omega
  rw [h48]
  exact Char.ofNat_toNat c

theorem isDigit_not_space {c : Char} (h : c.isDigit = true) : py_isspace c = false := by
  have hb := char_isDigit_toNat h
  have h1 : c ≠ ' ' := fun hc => absurd hb (by rw [hc]; decide)
  have h2 : c ≠ '\t' := fun hc => absurd hb (by rw [hc]; decide)
  have h3 : c ≠ '\n' := fun hc => absurd hb (by rw [hc]; decide)
  have h4 : c ≠ '\r' := fun hc => absurd hb (by rw [hc]; decide)
  have h5 : c ≠ Char.ofNat 11 := fun hc => absurd hb (by rw [hc]; decide)
  have h6 : c ≠ Char.ofNat 12 := fun hc => absurd hb (by rw [hc]; decide)
  simp [py_isspace, h1, h2, h3, h4, h5, h6]

theorem isDigit_ne_plus {c : Char} (h : c.isDigit = true) : c ≠ '+' :=
  fun hc => absurd h (by rw [hc]; decide)

theorem isDigit_ne_minus {c : Char} (h : c.isDigit = true) : c ≠ '-' :=
  fun hc => absurd h (by rw [hc]; decide)

theorem pyInt?_pair {a b : Char} (ha : a.isDigit = true) (hb : b.isDigit = true) :
    pyInt? (String.mk [a, b])
      = some (((a.toNat - 48) * 10 + (b.toNat - 48) : Nat) : Int) := by
  have hstrip : stripL [a, b] = [a, b] := by
    simp [stripL, List.dropWhile_cons, isDigit_not_space ha, isDigit_not_space hb]
  unfold pyInt?
  rw [str_data_mk, hstrip]
  dsimp only
  rw [if_neg (isDigit_ne_plus ha), if_neg (isDigit_ne_minus ha)]
  simp [intStart, intCore, ha, hb]

theorem daysInMonth_le_31 (y m : Nat) : daysInMonth y m ≤ 31 := by
  unfold daysInMonth
  split
  · split <;> omega
  · split <;> omega

theorem validYYMMDD_parts {s : String} (h : validYYMMDD s = true) :
    ∃ a b c d e5 f6 : Char, s.data = [a, b, c, d, e5, f6]
      ∧ a.isDigit = true ∧ b.isDigit = true ∧ c.isDigit = true ∧ d.isDigit = true
      ∧ e5.isDigit = true ∧ f6.isDigit = true
      ∧ 1 ≤ (c.toNat - 48) * 10 + (d.toNat - 48)
      ∧ (c.toNat - 48) * 10 + (d.toNat - 48) ≤ 12
      ∧ 1 ≤ (e5.toNat - 48) * 10 + (f6.toNat - 48)
      ∧ (e5.toNat - 48) * 10 + (f6.toNat - 48)
          ≤ daysInMonth (2000 + ((a.toNat - 48) * 10 + (b.toNat - 48)))
              ((c.toNat - 48) * 10 + (d.toNat - 48)) := by
  unfold validYYMMDD at h
  split at h
  next a b c d e5 f6 heq =>
    simp only [Bool.and_eq_true, decide_eq_true_eq] at h
    obtain ⟨⟨⟨⟨⟨⟨⟨⟨⟨ha, hb⟩, hc⟩, hd⟩, he⟩, hf⟩, hm1⟩, hm2⟩, hd1⟩, hd2⟩ := h
    exact ⟨a, b, c, d, e5, f6, heq, ha, hb, hc, hd, he, hf, hm1, hm2, hd1, hd2⟩
  next => exact absurd h (by simp)

theorem strftimeBdY_valid {s : String} (h : validYYMMDD s = true) :
    ∃ yy mm dd, yy < 100 ∧ 1 ≤ mm ∧ mm ≤ 12 ∧ 1 ≤ dd ∧ dd ≤ daysInMonth (2000 + yy) mm
      ∧ strftimeBdY s = some (monthName mm ++ " " ++ pad2 dd ++ ", " ++ fmt4 (2000 + yy))
      ∧ fmtYMD (2000 + yy) mm dd = s := by
  obtain ⟨a, b, c, d, e5, f6, heq, ha, hb, hc, hd, he, hf, hm1, hm2, hd1, hd2⟩ :=
    validYYMMDD_parts h
  have hva := char_isDigit_toNat ha
  have hvb := char_isDigit_toNat hb
  have hvc := char_isDigit_toNat hc
  have hvd := char_isDigit_toNat hd
  have hve := char_isDigit_toNat he
  have hvf := char_isDigit_toNat hf
  refine ⟨(a.toNat - 48) * 10 + (b.toNat - 48), (c.toNat - 48) * 10 + (d.toNat - 48),
    (e5.toNat - 48) * 10 + (f6.toNat - 48), by omega, hm1, hm2, hd1, hd2, ?_, ?_⟩
  · have htake : s.data.take 2 = [a, b] := by rw [heq]; rfl
    have htake2 : (s.data.drop 2).take 2 = [c, d] := by rw [heq]; rfl
    have hdrop4 : s.data.drop 4 = [e5, f6] := by rw [heq]; rfl
    unfold strftimeBdY
    rw [htake, htake2, hdrop4, pyInt?_pair ha hb, pyInt?_pair hc hd, pyInt?_pair he hf]
    dsimp only
    have hcond : 1 ≤ (((c.toNat - 48) * 10 + (d.toNat - 48) : Nat) : Int)
        ∧ (((c.toNat - 48) * 10 + (d.toNat - 48) : Nat) : Int) ≤ 12
        ∧ 1 ≤ (((e5.toNat - 48) * 10 + (f6.toNat - 48) : Nat) : Int)
        ∧ (((e5.toNat - 48) * 10 + (f6.toNat - 48) : Nat) : Int)
            ≤ (daysInMonth (2000 + (((a.toNat - 48) * 10 + (b.toNat - 48) : Nat) : Int)).toNat
                ((((c.toNat - 48) * 10 + (d.toNat - 48) : Nat) : Int)).toNat : Int)
        ∧ 1 ≤ (2000 + (((a.toNat - 48) * 10 + (b.toNat - 48) : Nat) : Int))
        ∧ (2000 + (((a.toNat - 48) * 10 + (b.toNat - 48) : Nat) : Int)) ≤ 9999 := by
      have hty : (2000 + (((a.toNat - 48) * 10 + (b.toNat - 48) : Nat) : Int)).toNat
          = 2000 + ((a.toNat - 48) * 10 + (b.toNat - 48)) := by omega
      have htm : ((((c.toNat - 48) * 10 + (d.toNat - 48) : Nat) : Int)).toNat
          = (c.toNat - 48) * 10 + (d.toNat - 48) := by omega
      rw [hty, htm]
      refine ⟨by omega, by omega, by omega, by omega, by omega, by omega⟩
    rw [if_pos hcond]
    have hty : (2000 + (((a.toNat - 48) * 10 + (b.toNat - 48) : Nat) : Int)).toNat
        = 2000 + ((a.toNat - 48) * 10 + (b.toNat - 48)) := by omega
    have htm : ((((c.toNat - 48) * 10 + (d.toNat - 48) : Nat) : Int)).toNat
        = (c.toNat - 48) * 10 + (d.toNat - 48) := by omega
    have htd : ((((e5.toNat - 48) * 10 + (f6.toNat - 48) : Nat) : Int)).toNat
        = (e5.toNat - 48) * 10 + (f6.toNat - 48) := by omega
    rw [hty, htm, htd]
  · apply String.ext
    rw [heq]
    unfold fmtYMD pad2
    rw [str_data_app, str_data_app, str_data_mk, str_data_mk, str_data_mk]
    have e1 : (2000 + ((a.toNat - 48) * 10 + (b.toNat - 48))) % 100 / 10 % 10
        = a.toNat - 48 := by omega
    have e2 : (2000 + ((a.toNat - 48) * 10 + (b.toNat - 48))) % 100 % 10
        = b.toNat - 48 := by omega
    have e3 : ((c.toNat - 48) * 10 + (d.toNat - 48)) / 10 % 10 = c.toNat - 48 := by omega
    have e4 : ((c.toNat - 48) * 10 + (d.toNat - 48)) % 10 = d.toNat - 48 := by omega
    have e5x : ((e5.toNat - 48) * 10 + (f6.toNat - 48)) / 10 % 10 = e5.toNat - 48 := by omega
    have e6 : ((e5.toNat - 48) * 10 + (f6.toNat - 48)) % 10 = f6.toNat - 48 := by omega
    rw [e1, e2, e3, e4, e5x, e6, digitChar_toNat_sub ha, digitChar_toNat_sub hb,
      digitChar_toNat_sub hc, digitChar_toNat_sub hd, digitChar_toNat_sub he,
      digitChar_toNat_sub hf]
    rfl

theorem matchMonth_name {mm : Nat} (h1 : 1 ≤ mm) (h2 : mm ≤ 12) (l : List Char) :
    matchMonth ((monthName mm).data ++ l) = some (mm, l) := by
  interval_cases mm <;>
    simp [matchMonth, monthName, prefixCI, List.isPrefixOf, List.findSome?]

theorem parseWs1_cons (l : List Char) (h : py_isspace (l.headD 'x') = false) :
    parseWs1 (' ' :: l) = some l := by
  unfold parseWs1
  dsimp only
  rw [if_pos (by decide : py_isspace ' ' = true)]
  cases l with
  | nil => rfl
  | cons c cs =>
    simp only [List.headD_cons] at h
    rw [List.dropWhile_cons, if_neg (by simp [h])]

theorem dayComma_pad2 {dd : Nat} (h1 : 1 ≤ dd) (h2 : dd ≤ 31) (r : List Char) :
    dayComma ((pad2 dd).data ++ ',' :: r) = some (dd, r) := by
  have g0 : digitChar 0 = '0' := by decide
  have g1 : digitChar 1 = '1' := by decide
  have g2 : digitChar 2 = '2' := by decide
  have g3 : digitChar 3 = '3' := by decide
  have g4 : digitChar 4 = '4' := by decide
  have g5 : digitChar 5 = '5' := by decide
  have g6 : digitChar 6 = '6' := by decide
  have g7 : digitChar 7 = '7' := by decide
  have g8 : digitChar 8 = '8' := by decide
  have g9 : digitChar 9 = '9' := by decide
  interval_cases dd <;>
    simp [pad2, g0, g1, g2, g3, g4, g5, g6, g7, g8, g9, dayComma, day2Val]

theorem year4End_fmt4 {yy : Nat} (h : yy < 100) :
    year4End (fmt4 (2000 + yy)).data = some (2000 + yy) := by
  show year4End [digitChar ((2000 + yy) / 1000 % 10), digitChar ((2000 + yy) / 100 % 10),
    digitChar ((2000 + yy) / 10 % 10), digitChar ((2000 + yy) % 10)] = _
  unfold year4End
  dsimp only
  rw [if_pos ⟨digitChar_isDigit (by omega), digitChar_isDigit (by omega),
    digitChar_isDigit (by omega), digitChar_isDigit (by omega)⟩]
  rw [digitChar_toNat (k := (2000 + yy) / 1000 % 10) (by omega),
    digitChar_toNat (k := (2000 + yy) / 100 % 10) (by omega),
    digitChar_toNat (k := (2000 + yy) / 10 % 10) (by omega),
    digitChar_toNat (k := (2000 + yy) % 10) (by omega)]
  congr 1
  omega

theorem strptime_strftime {yy mm dd : Nat} (hyy : yy < 100) (hm1 : 1 ≤ mm) (hm2 : mm ≤ 12)
    (hd1 : 1 ≤ dd) (hd2 : dd ≤ daysInMonth (2000 + yy) mm) :
    strptimeBdY (monthName mm ++ " " ++ pad2 dd ++ ", " ++ fmt4 (2000 + yy))
      = some (2000 + yy, mm, dd) := by
  have hd31 : dd ≤ 31 := le_trans hd2 (daysInMonth_le_31 _ _)
  have hdata : (monthName mm ++ " " ++ pad2 dd ++ ", " ++ fmt4 (2000 + yy)).data
      = (monthName mm).data
        ++ (' ' :: ((pad2 dd).data ++ (',' :: (' ' :: (fmt4 (2000 + yy)).data)))) := by
    simp only [str_data_app]
    simp [List.append_assoc]
  have hW1 : py_isspace
      (((pad2 dd).data ++ (',' :: (' ' :: (fmt4 (2000 + yy)).data))).headD 'x') = false := by
    have hh : ((pad2 dd).data ++ (',' :: (' ' :: (fmt4 (2000 + yy)).data))).headD 'x'
        = digitChar (dd / 10 % 10) := rfl
    rw [hh]
    exact digitChar_not_space (by omega)
  have hW2 : py_isspace ((fmt4 (2000 + yy)).data.headD 'x') = false := by
    have hh : (fmt4 (2000 + yy)).data.headD 'x' = digitChar ((2000 + yy) / 1000 % 10) := rfl
    rw [hh]
    exact digitChar_not_space (by omega)
  unfold strptimeBdY
  rw [hdata, matchMonth_name hm1 hm2]
  dsimp only
  rw [parseWs1_cons _ hW1]
  dsimp only
  rw [dayComma_pad2 hd1 hd31]
  dsimp only
  rw [parseWs1_cons _ hW2]
  dsimp only
  rw [year4End_fmt4 hyy]
  dsimp only
  rw [if_pos ⟨by omega, hd2⟩]

/-! ### C1: the serialize/parse round trip -/

theorem runLoop_ok_append {st st' : PState} {xs : List String}
    (h : runLoop st xs = .ok st') (ys : List String) :
    runLoop st (xs ++ ys) = runLoop st' ys := by
  rw [runLoop_append xs ys st, h]

theorem nl_not_mem_monthName {mm : Nat} (h1 : 1 ≤ mm) (h2 : mm ≤ 12) :
    '\n' ∉ (monthName mm).data := by
  interval_cases mm <;> decide

theorem nl_not_mem_pad2 (n : Nat) : '\n' ∉ (pad2 n).data := by
  intro hm
  rcases (by simpa [pad2] using hm : '\n' = digitChar (n / 10 % 10)
      ∨ '\n' = digitChar (n % 10)) with h | h
  · exact digitChar_ne_nl (Nat.mod_lt _ (by omega)) h.symm
  · exact digitChar_ne_nl (Nat.mod_lt _ (by omega)) h.symm

theorem nl_not_mem_fmt4 (n : Nat) : '\n' ∉ (fmt4 n).data := by
  intro hm
  rcases (by simpa [fmt4] using hm : '\n' = digitChar (n / 1000 % 10)
      ∨ '\n' = digitChar (n / 100 % 10) ∨ '\n' = digitChar (n / 10 % 10)
      ∨ '\n' = digitChar (n % 10)) with h | h | h | h <;>
    exact digitChar_ne_nl (Nat.mod_lt _ (by omega)) h.symm

theorem dateStr_no_nl {yy mm dd : Nat} (h1 : 1 ≤ mm) (h2 : mm ≤ 12) :
    '\n' ∉ (monthName mm ++ " " ++ pad2 dd ++ ", " ++ fmt4 (2000 + yy)).data := by
  intro hm
  simp only [str_data_app, List.mem_append] at hm
  rcases hm with ((((h | h) | h) | h) | h)
  · exact nl_not_mem_monthName h1 h2 h
  · exact absurd h (by decide)
  · exact nl_not_mem_pad2 dd h
  · exact absurd h (by decide)
  · exact nl_not_mem_fmt4 _ h

theorem splitNl_pyRjust1 {c : Char} (h : c ≠ '\n') (n : Nat) :
    splitNl (pyRjust1 c n) = [pyRjust1 c n] := by
  apply splitNl_no_nl
  intro hm
  exact h (List.eq_of_mem_replicate hm).symm

theorem pyStrip_of_ends {s : String} {a b : Char}
    (h1 : s.data.head? = some a) (h2 : s.data.getLast? = some b)
    (ha : py_isspace a = false) (hb : py_isspace b = false) : pyStrip s = s := by
  apply String.ext
  rw [pyStrip, str_data_mk]
  exact stripL_of_head_last _ h1 h2 ha hb

theorem pyStrip_dateStr {yy mm dd : Nat} (h1 : 1 ≤ mm) (h2 : mm ≤ 12) :
    pyStrip (monthName mm ++ " " ++ pad2 dd ++ ", " ++ fmt4 (2000 + yy))
      = monthName mm ++ " " ++ pad2 dd ++ ", " ++ fmt4 (2000 + yy) := by
  obtain ⟨a, r, har, hpa⟩ : ∃ a r, (monthName mm).data = a :: r ∧ py_isspace a = false := by
    interval_cases mm <;> exact ⟨_, _, rfl, by decide⟩
  apply pyStrip_of_ends (a := a) (b := digitChar ((2000 + yy) % 10))
  · simp [str_data_app, har]
  · have hlast : (fmt4 (2000 + yy)).data.getLast? = some (digitChar ((2000 + yy) % 10)) := rfl
    rw [str_data_app, List.getLast?_append, hlast]
    rfl
  · exact hpa
  · exact digitChar_not_space (Nat.mod_lt _ (by omega))

theorem joinNl_splitNl_blank (s : String) :
    joinNl (splitNl s ++ [""]) = s ++ "\n" ++ "\n" := by
  rw [joinNl_append, joinNl_splitNl, joinNl_cons, joinNl_nil, str_append_empty,
    str_empty_append]

theorem pyStrip_two_nl {s : String} (h : pyStrip s = s) :
    pyStrip (s ++ "\n" ++ "\n") = s := by
  rw [pyStrip_append_nl, pyStrip_append_nl, h]

theorem goodField_strip {s n : String} (h : goodField s n = true) : pyStrip s = s := by
  rw [goodField, Bool.and_eq_true] at h
  exact eq_of_beq h.1

theorem goodField_lines {s n : String} (h : goodField s n = true)
    (hn : pyStartsWith "" n = false) :
    ∀ l ∈ splitNl s ++ [""], pyStartsWith l n = false ∧ pyStartsWith l "----" = false := by
  intro l hl
  rcases List.mem_append.mp hl with hl | hl
  · rw [goodField, Bool.and_eq_true] at h
    have h2 := h.2
    rw [List.all_eq_true] at h2
    have h3 := h2 l hl
    simp only [Bool.and_eq_true, Bool.not_eq_true'] at h3
    exact h3
  · have he : l = "" := by simpa using hl
    subst he
    exact ⟨hn, by decide⟩

theorem parse_sections_eq (l0 l1 : String) (rest : List String) :
    parse_sections (l0 :: l1 :: rest) =
      match strptimeBdY (pyStrip l0) with
      | none => .error .valueError
      | some (y, m, d) =>
        match runLoop ⟨insertD (insertD (fun _ => none) "DateStr" (pyStrip l0)) "Date"
            (fmtYMD y m d), "Location", "Project",
            ["Keywords", "Goal", "Log Entry", "Summary", "Attachments", "Previous", "Next",
             "never find me"], ""⟩ rest with
        | .error e => .error e
        | .ok st => .ok st.result := rfl

theorem parse_serializeLines (e : Entry) {yy mm dd : Nat}
    (hyy : yy < 100) (hm1 : 1 ≤ mm) (hm2 : mm ≤ 12) (hd1 : 1 ≤ dd)
    (hd2 : dd ≤ daysInMonth (2000 + yy) mm)
    (hloc : goodField e.location "Project" = true)
    (hproj : goodField e.project "Keywords" = true)
    (hkw : goodField e.keywords "Goal" = true)
    (hgoal : goodField e.goal "Log Entry" = true)
    (hlog : goodField e.log "Summary" = true)
    (hsum : goodField e.summary "Attachments" = true)
    (hatt : goodField e.attachments "Previous" = true)
    (hprev : goodField e.previous "Next" = true)
    (hnext : goodField e.next "never find me" = true) :
    parse_sections
        (serializeLines e (monthName mm ++ " " ++ pad2 dd ++ ", " ++ fmt4 (2000 + yy)))
      = .ok (insertD (insertD (insertD (insertD (insertD (insertD (insertD (insertD (insertD
          (insertD (insertD (fun _ => none)
            "DateStr" (monthName mm ++ " " ++ pad2 dd ++ ", " ++ fmt4 (2000 + yy)))
            "Date" (fmtYMD (2000 + yy) mm dd))
            "Location" e.location) "Project" e.project) "Keywords" e.keywords)
            "Goal" e.goal) "Log Entry" e.log) "Summary" e.summary)
            "Attachments" e.attachments) "Previous" e.previous) "Next" e.next) := by
  set ds := monthName mm ++ " " ++ pad2 dd ++ ", " ++ fmt4 (2000 + yy) with hds
  have hstripds : pyStrip ds = ds := by rw [hds]; exact pyStrip_dateStr hm1 hm2
  have hstrp : strptimeBdY ds = some (2000 + yy, mm, dd) := by
    rw [hds]; exact strptime_strftime hyy hm1 hm2 hd1 hd2
  have hdsnl : '\n' ∉ ds.data := by rw [hds]; exact dateStr_no_nl hm1 hm2
  have hsplitds : splitNl ds = [ds] := splitNl_no_nl _ hdsnl
  have hexp : serializeLines e ds =
      ds :: pyRjust1 '=' ds.length ::
        ((splitNl e.location ++ [""])
        ++ ((["Project", pyRjust1 '-' 7] ++ (splitNl e.project ++ [""]))
        ++ ((["Keywords", pyRjust1 '-' 8] ++ (splitNl e.keywords ++ [""]))
        ++ ((["Goal", pyRjust1 '-' 4] ++ (splitNl e.goal ++ [""]))
        ++ ((["Log Entry", pyRjust1 '-' 9] ++ (splitNl e.log ++ [""]))
        ++ ((["Summary", pyRjust1 '-' 7] ++ (splitNl e.summary ++ [""]))
        ++ ((["Attachments", pyRjust1 '-' 11] ++ (splitNl e.attachments ++ [""]))
        ++ ((["Previous", pyRjust1 '-' 8] ++ (splitNl e.previous ++ [""]))
        ++ (["Next", pyRjust1 '-' 4] ++ (splitNl e.next ++ [""])))))))))) := by
    rw [serializeLines, printedLines]
    simp only [List.flatMap_cons, List.flatMap_nil, List.append_nil, hsplitds,
      splitNl_pyRjust1 (show ('=' : Char) ≠ '\n' by decide),
      splitNl_pyRjust1 (show ('-' : Char) ≠ '\n' by decide),
      show splitNl "" = [""] from by decide,
      show splitNl "Project" = ["Project"] from by decide,
      show splitNl "Keywords" = ["Keywords"] from by decide,
      show splitNl "Goal" = ["Goal"] from by decide,
      show splitNl "Log Entry" = ["Log Entry"] from by decide,
      show splitNl "Summary" = ["Summary"] from by decide,
      show splitNl "Attachments" = ["Attachments"] from by decide,
      show splitNl "Previous" = ["Previous"] from by decide,
      show splitNl "Next" = ["Next"] from by decide]
    simp [List.append_assoc]
  rw [hexp, parse_sections_eq, hstripds, hstrp]
  dsimp only
  set c0 : Dict := insertD (insertD (fun _ => none) "DateStr" ds) "Date"
    (fmtYMD (2000 + yy) mm dd) with hc0
  set c1 : Dict := insertD c0 "Location" e.location with hc1
  set c2 : Dict := insertD c1 "Project" e.project with hc2
  set c3 : Dict := insertD c2 "Keywords" e.keywords with hc3
  set c4 : Dict := insertD c3 "Goal" e.goal with hc4
  set c5 : Dict := insertD c4 "Log Entry" e.log with hc5
  set c6 : Dict := insertD c5 "Summary" e.summary with hc6
  set c7 : Dict := insertD c6 "Attachments" e.attachments with hc7
  set c8 : Dict := insertD c7 "Previous" e.previous with hc8
  set c9 : Dict := insertD c8 "Next" e.next with hc9
  have hB0 : runLoop ⟨c0, "Location", "Project",
      ["Keywords", "Goal", "Log Entry", "Summary", "Attachments", "Previous", "Next",
       "never find me"], ""⟩ (splitNl e.location ++ [""])
      = .ok ⟨c1, "Location", "Project",
          ["Keywords", "Goal", "Log Entry", "Summary", "Attachments", "Previous", "Next",
           "never find me"], e.location ++ "\n" ++ "\n"⟩ := by
    have hb := runLoop_body (splitNl e.location ++ [""]) ⟨c0, "Location", "Project",
      ["Keywords", "Goal", "Log Entry", "Summary", "Attachments", "Previous", "Next",
       "never find me"], ""⟩ (by simp) (fun l hl => goodField_lines hloc (by decide) l hl)
    rw [hb]
    rw [hc1]
    simp only [str_empty_append, joinNl_splitNl_blank,
      pyStrip_two_nl (goodField_strip hloc)]
  have hS1 : runLoop ⟨c1, "Location", "Project",
      ["Keywords", "Goal", "Log Entry", "Summary", "Attachments", "Previous", "Next",
       "never find me"], e.location ++ "\n" ++ "\n"⟩
      (["Project", pyRjust1 '-' 7] ++ (splitNl e.project ++ [""]))
      = .ok ⟨c2, "Project", "Keywords",
          ["Goal", "Log Entry", "Summary", "Attachments", "Previous", "Next",
           "never find me"], e.project ++ "\n" ++ "\n"⟩ := by
    have hb := runLoop_block ⟨c1, "Location", "Project",
      ["Keywords", "Goal", "Log Entry", "Summary", "Attachments", "Previous", "Next",
       "never find me"], e.location ++ "\n" ++ "\n"⟩ "Project" (pyRjust1 '-' 7) e.project
      rfl rfl (by decide) (by decide) (goodField_lines hproj (by decide))
      (goodField_strip hproj)
    rw [hb, hc2, hc1]
    simp only [pyStrip_two_nl (goodField_strip hloc), insertD_idem]
  have hS2 : runLoop ⟨c2, "Project", "Keywords",
      ["Goal", "Log Entry", "Summary", "Attachments", "Previous", "Next",
       "never find me"], e.project ++ "\n" ++ "\n"⟩
      (["Keywords", pyRjust1 '-' 8] ++ (splitNl e.keywords ++ [""]))
      = .ok ⟨c3, "Keywords", "Goal",
          ["Log Entry", "Summary", "Attachments", "Previous", "Next", "never find me"],
          e.keywords ++ "\n" ++ "\n"⟩ := by
    have hb := runLoop_block ⟨c2, "Project", "Keywords",
      ["Goal", "Log Entry", "Summary", "Attachments", "Previous", "Next",
       "never find me"], e.project ++ "\n" ++ "\n"⟩ "Keywords" (pyRjust1 '-' 8) e.keywords
      rfl rfl (by decide) (by decide) (goodField_lines hkw (by decide))
      (goodField_strip hkw)
    rw [hb, hc3, hc2]
    simp only [pyStrip_two_nl (goodField_strip hproj), insertD_idem]
  have hS3 : runLoop ⟨c3, "Keywords", "Goal",
      ["Log Entry", "Summary", "Attachments", "Previous", "Next", "never find me"],
      e.keywords ++ "\n" ++ "\n"⟩
      (["Goal", pyRjust1 '-' 4] ++ (splitNl e.goal ++ [""]))
      = .ok ⟨c4, "Goal", "Log Entry",
          ["Summary", "Attachments", "Previous", "Next", "never find me"],
          e.goal ++ "\n" ++ "\n"⟩ := by
    have hb := runLoop_block ⟨c3, "Keywords", "Goal",
      ["Log Entry", "Summary", "Attachments", "Previous", "Next", "never find me"],
      e.keywords ++ "\n" ++ "\n"⟩ "Goal" (pyRjust1 '-' 4) e.goal
      rfl rfl (by decide) (by decide) (goodField_lines hgoal (by decide))
      (goodField_strip hgoal)
    rw [hb, hc4, hc3]
    simp only [pyStrip_two_nl (goodField_strip hkw), insertD_idem]
  have hS4 : runLoop ⟨c4, "Goal", "Log Entry",
      ["Summary", "Attachments", "Previous", "Next", "never find me"],
      e.goal ++ "\n" ++ "\n"⟩
      (["Log Entry", pyRjust1 '-' 9] ++ (splitNl e.log ++ [""]))
      = .ok ⟨c5, "Log Entry", "Summary",
          ["Attachments", "Previous", "Next", "never find me"], e.log ++ "\n" ++ "\n"⟩ := by
    have hb := runLoop_block ⟨c4, "Goal", "Log Entry",
      ["Summary", "Attachments", "Previous", "Next", "never find me"],
      e.goal ++ "\n" ++ "\n"⟩ "Log Entry" (pyRjust1 '-' 9) e.log
      rfl rfl (by decide) (by decide) (goodField_lines hlog (by decide))
      (goodField_strip hlog)
    rw [hb, hc5, hc4]
    simp only [pyStrip_two_nl (goodField_strip hgoal), insertD_idem]
  have hS5 : runLoop ⟨c5, "Log Entry", "Summary",
      ["Attachments", "Previous", "Next", "never find me"], e.log ++ "\n" ++ "\n"⟩
      (["Summary", pyRjust1 '-' 7] ++ (splitNl e.summary ++ [""]))
      = .ok ⟨c6, "Summary", "Attachments",
          ["Previous", "Next", "never find me"], e.summary ++ "\n" ++ "\n"⟩ := by
    have hb := runLoop_block ⟨c5, "Log Entry", "Summary",
      ["Attachments", "Previous", "Next", "never find me"], e.log ++ "\n" ++ "\n"⟩
      "Summary" (pyRjust1 '-' 7) e.summary
      rfl rfl (by decide) (by decide) (goodField_lines hsum (by decide))
      (goodField_strip hsum)
    rw [hb, hc6, hc5]
    simp only [pyStrip_two_nl (goodField_strip hlog), insertD_idem]
  have hS6 : runLoop ⟨c6, "Summary", "Attachments",
      ["Previous", "Next", "never find me"], e.summary ++ "\n" ++ "\n"⟩
      (["Attachments", pyRjust1 '-' 11] ++ (splitNl e.attachments ++ [""]))
      = .ok ⟨c7, "Attachments", "Previous",
          ["Next", "never find me"], e.attachments ++ "\n" ++ "\n"⟩ := by
    have hb := runLoop_block ⟨c6, "Summary", "Attachments",
      ["Previous", "Next", "never find me"], e.summary ++ "\n" ++ "\n"⟩
      "Attachments" (pyRjust1 '-' 11) e.attachments
      rfl rfl (by decide) (by decide) (goodField_lines hatt (by decide))
      (goodField_strip hatt)
    rw [hb, hc7, hc6]
    simp only [pyStrip_two_nl (goodField_strip hsum), insertD_idem]
  have hS7 : runLoop ⟨c7, "Attachments", "Previous",
      ["Next", "never find me"], e.attachments ++ "\n" ++ "\n"⟩
      (["Previous", pyRjust1 '-' 8] ++ (splitNl e.previous ++ [""]))
      = .ok ⟨c8, "Previous", "Next", ["never find me"], e.previous ++ "\n" ++ "\n"⟩ := by
    have hb := runLoop_block ⟨c7, "Attachments", "Previous",
      ["Next", "never find me"], e.attachments ++ "\n" ++ "\n"⟩
      "Previous" (pyRjust1 '-' 8) e.previous
      rfl rfl (by decide) (by decide) (goodField_lines hprev (by decide))
      (goodField_strip hprev)
    rw [hb, hc8, hc7]
    simp only [pyStrip_two_nl (goodField_strip hatt), insertD_idem]
  have hS8 : runLoop ⟨c8, "Previous", "Next", ["never find me"],
      e.previous ++ "\n" ++ "\n"⟩
      (["Next", pyRjust1 '-' 4] ++ (splitNl e.next ++ [""]))
      = .ok ⟨c9, "Next", "never find me", [], e.next ++ "\n" ++ "\n"⟩ := by
    have hb := runLoop_block ⟨c8, "Previous", "Next", ["never find me"],
      e.previous ++ "\n" ++ "\n"⟩ "Next" (pyRjust1 '-' 4) e.next
      rfl rfl (by decide) (by decide) (goodField_lines hnext (by decide))
      (goodField_strip hnext)
    rw [hb, hc9, hc8]
    simp only [pyStrip_two_nl (goodField_strip hprev), insertD_idem]
  rw [runLoop_ok_append hB0, runLoop_ok_append hS1, runLoop_ok_append hS2,
    runLoop_ok_append hS3, runLoop_ok_append hS4, runLoop_ok_append hS5,
    runLoop_ok_append hS6, runLoop_ok_append hS7, hS8]

theorem getKeyChainDateStr (a b c d f g h i j k m fn : String) :
    getKey (dictOf a b c d f g h i j k m) "DateStr" fn = .ok a := by
  have hl : dictOf a b c d f g h i j k m "DateStr" = some a := by
    unfold dictOf
    repeat rw [insertD_other _ (by decide)]
    rw [insertD_same]
  unfold getKey
  rw [hl]

theorem getKeyChainDate (a b c d f g h i j k m fn : String) :
    getKey (dictOf a b c d f g h i j k m) "Date" fn = .ok b := by
  have hl : dictOf a b c d f g h i j k m "Date" = some b := by
    unfold dictOf
    repeat rw [insertD_other _ (by decide)]
    rw [insertD_same]
  unfold getKey
  rw [hl]

theorem getKeyChainLocation (a b c d f g h i j k m fn : String) :
    getKey (dictOf a b c d f g h i j k m) "Location" fn = .ok c := by
  have hl : dictOf a b c d f g h i j k m "Location" = some c := by
    unfold dictOf
    repeat rw [insertD_other _ (by decide)]
    rw [insertD_same]
  unfold getKey
  rw [hl]

theorem getKeyChainProject (a b c d f g h i j k m fn : String) :
    getKey (dictOf a b c d f g h i j k m) "Project" fn = .ok d := by
  have hl : dictOf a b c d f g h i j k m "Project" = some d := by
    unfold dictOf
    repeat rw [insertD_other _ (by decide)]
    rw [insertD_same]
  unfold getKey
  rw [hl]

theorem getKeyChainKeywords (a b c d f g h i j k m fn : String) :
    getKey (dictOf a b c d f g h i j k m) "Keywords" fn = .ok f := by
  have hl : dictOf a b c d f g h i j k m "Keywords" = some f := by
    unfold dictOf
    repeat rw [insertD_other _ (by decide)]
    rw [insertD_same]
  unfold getKey
  rw [hl]

theorem getKeyChainGoal (a b c d f g h i j k m fn : String) :
    getKey (dictOf a b c d f g h i j k m) "Goal" fn = .ok g := by
  have hl : dictOf a b c d f g h i j k m "Goal" = some g := by
    unfold dictOf
    repeat rw [insertD_other _ (by decide)]
    rw [insertD_same]
  unfold getKey
  rw [hl]

theorem getKeyChainLog (a b c d f g h i j k m fn : String) :
    getKey (dictOf a b c d f g h i j k m) "Log Entry" fn = .ok h := by
  have hl : dictOf a b c d f g h i j k m "Log Entry" = some h := by
    unfold dictOf
    repeat rw [insertD_other _ (by decide)]
    rw [insertD_same]
  unfold getKey
  rw [hl]

theorem getKeyChainSummary (a b c d f g h i j k m fn : String) :
    getKey (dictOf a b c d f g h i j k m) "Summary" fn = .ok i := by
  have hl : dictOf a b c d f g h i j k m "Summary" = some i := by
    unfold dictOf
    repeat rw [insertD_other _ (by decide)]
    rw [insertD_same]
  unfold getKey
  rw [hl]

theorem getKeyChainAttachments (a b c d f g h i j k m fn : String) :
    getKey (dictOf a b c d f g h i j k m) "Attachments" fn = .ok j := by
  have hl : dictOf a b c d f g h i j k m "Attachments" = some j := by
    unfold dictOf
    repeat rw [insertD_other _ (by decide)]
    rw [insertD_same]
  unfold getKey
  rw [hl]

theorem getKeyChainPrevious (a b c d f g h i j k m fn : String) :
    getKey (dictOf a b c d f g h i j k m) "Previous" fn = .ok k := by
  have hl : dictOf a b c d f g h i j k m "Previous" = some k := by
    unfold dictOf
    repeat rw [insertD_other _ (by decide)]
    rw [insertD_same]
  unfold getKey
  rw [hl]

theorem getKeyChainNext (a b c d f g h i j k m fn : String) :
    getKey (dictOf a b c d f g h i j k m) "Next" fn = .ok m := by
  have hl : dictOf a b c d f g h i j k m "Next" = some m := by
    unfold dictOf
    rw [insertD_same]
  unfold getKey
  rw [hl]

/-- C1, amended round-trip law.  For an entry whose `date` is a valid
six-digit YYMMDD string, whose `date_str` cache is unset, and whose ten
section texts are trimmed and contain no line starting with the next
expected section title nor with `----` (for `next` the forbidden prefix is
the parser's `never find me` sentinel), `to_file`'s display date computation
succeeds and re-parsing the exact lines `to_file` writes recovers the record:
every field of the original is reproduced, with only the folder normalised
and the `date_str` cache now holding the rendered date. -/
theorem c1_roundtrip (e : Entry)
    (hdate : validYYMMDD e.date = true)
    (hcache : e.date_str = none)
    (hloc : goodField e.location "Project" = true)
    (hproj : goodField e.project "Keywords" = true)
    (hkw : goodField e.keywords "Goal" = true)
    (hgoal : goodField e.goal "Log Entry" = true)
    (hlog : goodField e.log "Summary" = true)
    (hsum : goodField e.summary "Attachments" = true)
    (hatt : goodField e.attachments "Previous" = true)
    (hprev : goodField e.previous "Next" = true)
    (hnext : goodField e.next "never find me" = true) :
    ∃ ds, get_date e = some ds ∧
      entry_load e.filename (serializeLines e ds)
        = .ok { e with folder := entry_dir, date_str := some ds } := by
  obtain ⟨yy, mm, dd, hyy, hm1, hm2, hd1, hd2, hstr, hfmt⟩ := strftimeBdY_valid hdate
  refine ⟨monthName mm ++ " " ++ pad2 dd ++ ", " ++ fmt4 (2000 + yy), ?_, ?_⟩
  · unfold get_date
    rw [hcache]
    exact hstr
  · have hps := parse_serializeLines e hyy hm1 hm2 hd1 hd2 hloc hproj hkw hgoal hlog
      hsum hatt hprev hnext
    rw [hfmt] at hps
    have hps' : parse_sections
        (serializeLines e (monthName mm ++ " " ++ pad2 dd ++ ", " ++ fmt4 (2000 + yy)))
        = .ok (dictOf (monthName mm ++ " " ++ pad2 dd ++ ", " ++ fmt4 (2000 + yy))
            e.date e.location e.project e.keywords e.goal e.log e.summary e.attachments
            e.previous e.next) := hps
    unfold entry_load
    rw [hps']
    dsimp only
    simp only [getKeyChainDate, getKeyChainDateStr, getKeyChainLocation, getKeyChainProject,
      getKeyChainKeywords, getKeyChainGoal, getKeyChainLog, getKeyChainSummary,
      getKeyChainAttachments, getKeyChainPrevious, getKeyChainNext, bind, Except.bind]

/-- C1 counterexample to the unrestricted law: `entryQuirk` has all eleven
fields non-empty, yet its `log` contains a line starting with `Summary`, so
parsing the very lines `to_file` writes terminates the log section early:
the reloaded record's `log` is the empty string, not the original. -/
theorem c1_log_line_breaks_roundtrip :
    Except.map Entry.log (entry_load entryQuirk.filename
        ((to_file_lines entryQuirk).getD [])) = .ok ""
    ∧ entryQuirk.log ≠ "" := by decide

theorem c1_roundtrip_witness :
    ∃ ds, get_date baseEntry = some ds ∧
      entry_load baseEntry.filename (serializeLines baseEntry ds)
        = .ok { baseEntry with folder := entry_dir, date_str := some ds } :=
  c1_roundtrip baseEntry (by decide) rfl (by decide) (by decide) (by decide) (by decide)
    (by decide) (by decide) (by decide) (by decide) (by decide)
